import Mathlib

/-!
Verification of the tasktroll response-normalization engine and expiry
scheduler.  The TypeScript sources are embedded shallowly: text is a
`List Char`, JavaScript values flowing out of `JSON.parse` are `JsonValue`,
exceptions are `Option`/flow markers, and `Math.random` / the network are
oracle parameters.  JavaScript string lengths are modelled as code-point
counts (all concrete inputs below are BMP text, where the two coincide).
-/

namespace TaskTroll

/-- A parsed JSON value (the result of a successful `JSON.parse`).  Number
literals keep their source characters; their numeric value is only ever
used for truthiness, which is decided from the mantissa digits. -/
inductive JsonValue where
  | null : JsonValue
  | bool : Bool → JsonValue
  | num : List Char → JsonValue
  | str : List Char → JsonValue
  | arr : List JsonValue → JsonValue
  | obj : List (List Char × JsonValue) → JsonValue

/-- JSON whitespace (the four characters `JSON.parse` skips between tokens). -/
def jsWs (c : Char) : Bool :=
  c = ' ' ∨ c = '\t' ∨ c = '\n' ∨ c = '\r'

/-- JavaScript whitespace: the characters matched by the regex class `\s`
and stripped by `String.prototype.trim`, by code point. -/
def jsSpace (c : Char) : Bool :=
  let n := c.toNat
  n = 0x20 ∨ n = 0x09 ∨ n = 0x0a ∨ n = 0x0d ∨ n = 0x0b ∨ n = 0x0c ∨
  n = 0xa0 ∨ n = 0x1680 ∨ (0x2000 ≤ n ∧ n ≤ 0x200a) ∨
  n = 0x2028 ∨ n = 0x2029 ∨ n = 0x202f ∨ n = 0x205f ∨
  n = 0x3000 ∨ n = 0xfeff

/-- `String.prototype.trim`. -/
def jsTrim (cs : List Char) : List Char :=
  ((cs.dropWhile jsSpace).reverse.dropWhile jsSpace).reverse

/-- `hay.includes(needle)` on strings. -/
def hasSub (hay needle : List Char) : Bool :=
  hay.tails.any (fun t => needle.isPrefixOf t)

/-- Digit test used for JSON numbers and numbered-list bullets. -/
def isDig (c : Char) : Bool := '0' ≤ c ∧ c ≤ '9'

/-- Does a JSON number literal denote zero?  True exactly when every
mantissa digit is `0` (the exponent cannot make a non-zero mantissa zero
within the range any of the code's literals reach). -/
def numIsZero (lit : List Char) : Bool :=
  (lit.takeWhile (fun c => c ≠ 'e' ∧ c ≠ 'E')).all (fun c => ¬isDig c ∨ c = '0')

/-- JavaScript truthiness of a parsed JSON value. -/
def truthy : JsonValue → Bool
  | .null => false
  | .bool b => b
  | .num lit => ¬numIsZero lit
  | .str s => ¬s.isEmpty
  | .arr _ => true
  | .obj _ => true

/-- Property read `obj[key]`: `some` the stored value for objects that have
the key, `none` (undefined) otherwise.  `JSON.parse` never produces
duplicate keys in this model (`insertField` keeps the last value), so the
first match is the only one. -/
def getField : JsonValue → List Char → Option JsonValue
  | .obj fs, k => (fs.find? (fun f => f.1 = k)).map (·.2)
  | _, _ => none

/-- Object-member insertion as `JSON.parse` performs it: a repeated key
keeps its original position but takes the later value. -/
def insertField (fs : List (List Char × JsonValue)) (k : List Char)
    (v : JsonValue) : List (List Char × JsonValue) :=
  match fs with
  | [] => [(k, v)]
  | f :: rest => if f.1 = k then (k, v) :: rest else f :: insertField rest k v

/-- `x || y` on JavaScript values: `x` when present and truthy, else `y`. -/
def jsOr (x : Option JsonValue) (y : JsonValue) : JsonValue :=
  match x with
  | some v => if truthy v then v else y
  | none => y

/-- Lower-case hex digit, for `JSON.stringify` control-character escapes. -/
def hexDig (n : Nat) : Char :=
  if n < 10 then Char.ofNat (48 + n) else Char.ofNat (87 + n)

/-- One character of a `JSON.stringify` string body. -/
def stringifyEsc (c : Char) : List Char :=
  if c = '"' then ['\\', '"']
  else if c = '\\' then ['\\', '\\']
  else if c = '\x08' then ['\\', 'b']
  else if c = '\t' then ['\\', 't']
  else if c = '\n' then ['\\', 'n']
  else if c = '\x0c' then ['\\', 'f']
  else if c = '\r' then ['\\', 'r']
  else if c.toNat < 0x20 then
    ['\\', 'u', '0', '0', hexDig (c.toNat / 16), hexDig (c.toNat % 16)]
  else [c]

/-- Join pieces with commas (array/object member separator). -/
def commaJoin : List (List Char) → List Char
  | [] => []
  | [p] => p
  | p :: rest => p ++ ',' :: commaJoin rest

/-- `JSON.stringify` of a parsed value (no indentation, as the code calls it). -/
def stringify : JsonValue → List Char
  | .null => "null".toList
  | .bool true => "true".toList
  | .bool false => "false".toList
  | .num lit => lit
  | .str s => '"' :: (s.map stringifyEsc).flatten ++ ['"']
  | .arr xs => '[' :: commaJoin (xs.attach.map fun x => stringify x.1) ++ [']']
  | .obj fs => '{' :: commaJoin (fs.attach.map fun f =>
      '"' :: (f.1.1.map stringifyEsc).flatten ++ '"' :: ':' :: stringify f.1.2) ++ ['}']
decreasing_by
  all_goals simp_wf
  · have := List.sizeOf_lt_of_mem x.2
    omega
  · have h1 := List.sizeOf_lt_of_mem f.2
    have h2 : sizeOf f.1.2 < sizeOf f.1 := by
      obtain ⟨a, b⟩ := f.1
      simp
    omega

/-- Skip JSON token whitespace. -/
def skipWs (cs : List Char) : List Char := cs.dropWhile jsWs

/-- Value of one hex digit for `\uXXXX` escapes. -/
def hexVal (c : Char) : Option Nat :=
  if '0' ≤ c ∧ c ≤ '9' then some (c.toNat - 48)
  else if 'a' ≤ c ∧ c ≤ 'f' then some (c.toNat - 87)
  else if 'A' ≤ c ∧ c ≤ 'F' then some (c.toNat - 70)
  else none

/-- Decode the four hex digits of a `\uXXXX` escape.  A lone surrogate
(legal for `JSON.parse`, not a Lean scalar value) decodes to U+FFFD. -/
def parseHex4 : List Char → Option (Char × List Char)
  | a :: b :: c :: d :: rest => do
    let va ← hexVal a
    let vb ← hexVal b
    let vc ← hexVal c
    let vd ← hexVal d
    let n := ((va * 16 + vb) * 16 + vc) * 16 + vd
    some (if h : n.isValidChar then Char.ofNatAux n h else '\uFFFD', rest)
  | _ => none

/-- The body of a JSON string, after the opening quote: the decoded
content and the text after the closing quote.  Raw control characters and
bad escapes are rejected, as `JSON.parse` rejects them. -/
def parseStrBody : Nat → List Char → Option (List Char × List Char)
  | 0, _ => none
  | _ + 1, [] => none
  | fuel + 1, c :: rest =>
    if c = '"' then some ([], rest)
    else if c = '\\' then
      match rest with
      | [] => none
      | e :: rest2 =>
        let dec : Option (Char × List Char) :=
          if e = '"' then some ('"', rest2)
          else if e = '\\' then some ('\\', rest2)
          else if e = '/' then some ('/', rest2)
          else if e = 'b' then some ('\x08', rest2)
          else if e = 'f' then some ('\x0c', rest2)
          else if e = 'n' then some ('\n', rest2)
          else if e = 'r' then some ('\r', rest2)
          else if e = 't' then some ('\t', rest2)
          else if e = 'u' then parseHex4 rest2
          else none
        match dec with
        | none => none
        | some (ch, rest3) =>
          (parseStrBody fuel rest3).map (fun p => (ch :: p.1, p.2))
    else if c.toNat < 0x20 then none
    else (parseStrBody fuel rest).map (fun p => (c :: p.1, p.2))

/-- A JSON number literal: `-?(0|[1-9][0-9]*)(.[0-9]+)?([eE][+-]?[0-9]+)?`.
Returns the literal's characters and the rest of the input. -/
def parseNumLit (cs : List Char) : Option (List Char × List Char) :=
  let (sign, afterSign) :=
    match cs with
    | '-' :: rest => (['-'], rest)
    | _ => (([] : List Char), cs)
  match afterSign with
  | [] => none
  | d :: _ =>
    if ¬isDig d then none
    else
      let intPart := if d = '0' then ['0'] else afterSign.takeWhile isDig
      let afterInt := if d = '0' then afterSign.tail else afterSign.dropWhile isDig
      let (fracPart, afterFrac) :=
        match afterInt with
        | '.' :: f :: fr =>
          if isDig f then
            ('.' :: (f :: fr).takeWhile isDig, (f :: fr).dropWhile isDig)
          else (([] : List Char), afterInt)
        | _ => (([] : List Char), afterInt)
      if fracPart.isEmpty ∧ afterInt.headD ' ' = '.' then none
      else
        match afterFrac with
        | e :: es =>
          if e = 'e' ∨ e = 'E' then
            let (esign, afterEsign) :=
              match es with
              | '+' :: t => (['+'], t)
              | '-' :: t => (['-'], t)
              | _ => (([] : List Char), es)
            match afterEsign with
            | x :: _ =>
              if isDig x then
                some (sign ++ intPart ++ fracPart ++ e :: esign ++
                  afterEsign.takeWhile isDig, afterEsign.dropWhile isDig)
              else none
            | [] => none
          else some (sign ++ intPart ++ fracPart, afterFrac)
        | [] => some (sign ++ intPart ++ fracPart, afterFrac)

mutual

/-- One JSON value at the head of the input (leading whitespace already
skipped); returns the value and the unconsumed rest. -/
def parseVal : Nat → List Char → Option (JsonValue × List Char)
  | 0, _ => none
  | _ + 1, [] => none
  | fuel + 1, c :: rest =>
    if c = '"' then
      (parseStrBody (rest.length + 1) rest).map (fun p => (.str p.1, p.2))
    else if c = '{' then
      match skipWs rest with
      | '}' :: r => some (.obj [], r)
      | r => parseMembers fuel r []
    else if c = '[' then
      match skipWs rest with
      | ']' :: r => some (.arr [], r)
      | r => parseElems fuel r []
    else if c = 't' then
      match rest with
      | 'r' :: 'u' :: 'e' :: r => some (.bool true, r)
      | _ => none
    else if c = 'f' then
      match rest with
      | 'a' :: 'l' :: 's' :: 'e' :: r => some (.bool false, r)
      | _ => none
    else if c = 'n' then
      match rest with
      | 'u' :: 'l' :: 'l' :: r => some (.null, r)
      | _ => none
    else if c = '-' ∨ isDig c then
      (parseNumLit (c :: rest)).map (fun p => (.num p.1, p.2))
    else none

/-- Members of an object, starting at a key (after `{` or a comma). -/
def parseMembers : Nat → List Char → List (List Char × JsonValue) →
    Option (JsonValue × List Char)
  | 0, _, _ => none
  | fuel + 1, cs, acc =>
    match cs with
    | '"' :: rest =>
      match parseStrBody (rest.length + 1) rest with
      | none => none
      | some (key, afterKey) =>
        match skipWs afterKey with
        | ':' :: afterColon =>
          match parseVal fuel (skipWs afterColon) with
          | none => none
          | some (v, afterVal) =>
            let acc' := insertField acc key v
            match skipWs afterVal with
            | ',' :: afterComma => parseMembers fuel (skipWs afterComma) acc'
            | '}' :: r => some (.obj acc', r)
            | _ => none
        | _ => none
    | _ => none

/-- Elements of an array, starting at a value (after `[` or a comma). -/
def parseElems : Nat → List Char → List JsonValue →
    Option (JsonValue × List Char)
  | 0, _, _ => none
  | fuel + 1, cs, acc =>
    match parseVal fuel cs with
    | none => none
    | some (v, afterVal) =>
      match skipWs afterVal with
      | ',' :: afterComma => parseElems fuel (skipWs afterComma) (acc ++ [v])
      | ']' :: r => some (.arr (acc ++ [v]), r)
      | _ => none

end

/-- `JSON.parse`: `some` the parsed value, `none` a `SyntaxError`. -/
def jsonParse (cs : List Char) : Option JsonValue :=
  match parseVal (4 * cs.length + 4) (skipWs cs) with
  | some (v, rest) => if (skipWs rest).isEmpty then some v else none
  | none => none

/-! ## The popup's blame-message normalization (`safeParseJSON`, part_000) -/

/-- The popup's built-in default reminder set (`DEFAULT_BLAME_MESSAGES`
of `prompts/taskAnalysis`). -/
def DEFAULT_BLAME_MESSAGES : List (List Char) := [
  "Làm đi ông nội, thua mấy đứa fresher hết rồi!".toList,
  "Ê! Làm task đi ba, mấy đứa intern nó còn nhanh hơn mày đó!".toList,
  "Lướt TikTok hoài, bao giờ mới làm? Khóc khi bị PIP bây giờ!".toList,
  "Đồng nghiệp lên senior rồi, còn mày thì sao? Lười chảy thây!".toList,
  "Sếp nhìn là biết mày lười, coi chừng bay màu cuối tháng!".toList,
  "Bao giờ mới làm? ChatGPT không làm hộ mày đâu!".toList,
  "Đi phỏng vấn lại đi, lười kiểu này làm gì có công ty nào nhận!".toList,
  "Task đơn giản vậy mà cũng không làm, toàn tìm cớ trì hoãn!".toList,
  "Ê, không làm bây giờ thì mai đừng đi làm luôn đi thím!".toList,
  "Deadline qua lâu rồi! Mày là Senior Procrastinator hả?".toList,
  "Cứ lướt Reddit đi, rồi ai đó sẽ làm task của mày, mơ à?".toList,
  "Tưởng 10x dev, ai dè lười 100x. Đứng dậy làm việc đi!".toList,
  "Trì hoãn nữa là tao report lên sếp đó, làm đi ông!".toList,
  "Tụi fresher nó làm xong 5 task rồi, mày còn chưa bắt đầu!".toList,
  "Bạn apply vào vị trí dev hay chuyên gia trì hoãn vậy?".toList,
  "Deadline mai rồi, chưa làm gì hết, thức đêm code đi thím!".toList]

/-- The default set as result values. -/
def DEFAULT_BLAME_VALUES : List JsonValue := DEFAULT_BLAME_MESSAGES.map .str

/-- The literal key `blameMessages`. -/
def bmKey : List Char := "blameMessages".toList

/-- The filter's second rejected literal, `blameMessages\` (written
`"blameMessages\\"` in the source). -/
def bmEsc : List Char := "blameMessages".toList ++ ['\\']

/-- A backtick (kept out of the source text as a code point). -/
def btick : Char := Char.ofNat 96

/-- A markdown code fence. -/
def fenceTicks : List Char := [btick, btick, btick]

/-- Split at the first occurrence of `needle`: the text before it and the
text after it, or `none` when it does not occur. -/
def splitAtSub (needle : List Char) : List Char → Option (List Char × List Char)
  | [] => if needle.isPrefixOf ([] : List Char) then some ([], []) else none
  | c :: rest =>
    if needle.isPrefixOf (c :: rest) then some ([], (c :: rest).drop needle.length)
    else (splitAtSub needle rest).map (fun p => (c :: p.1, p.2))

/-- Capture group 1 of `/(three ticks)(?:json)?\s*([\s\S]*?)(three ticks)/`:
from the first opening fence that has a closing fence after it, the text up
to that closing fence, minus an optional leading `json` tag and leading
whitespace.  `none` when the regex does not match. -/
def fenceGroup : List Char → Option (List Char)
  | [] => none
  | c :: rest =>
    if fenceTicks.isPrefixOf (c :: rest) then
      match splitAtSub fenceTicks ((c :: rest).drop 3) with
      | some (chunk, _) =>
        let noTag := if "json".toList.isPrefixOf chunk then chunk.drop 4 else chunk
        some (noTag.dropWhile jsSpace)
      | none => fenceGroup rest
    else fenceGroup rest

/-- Fence extraction: when the text contains a code fence and the fence
regex matches with a non-empty group, the trimmed group replaces the text. -/
def fenceExtract (cs : List Char) : List Char :=
  if hasSub cs fenceTicks then
    match fenceGroup cs with
    | some g => if g.isEmpty then cs else jsTrim g
    | none => cs
  else cs

/-- Length bound used for termination of the regex scans. -/
theorem length_dropWhile_le (p : Char → Bool) (l : List Char) :
    (l.dropWhile p).length ≤ l.length := by
  induction l with
  | nil => simp [List.dropWhile]
  | cons c rest ih =>
    simp only [List.dropWhile]
    split
    · simp only [List.length_cons]
      omega
    · simp

/-- Is the head of the rest a whitespace character? -/
def headWs : List Char → Bool
  | r :: _ => jsSpace r
  | [] => false

/-- `text.split(/[.!?][\s\n]+/)`: pieces between sentence boundaries
(each step consumes at least one character, so `length + 1` fuel is never
exhausted). -/
def sentSplitGo : Nat → List Char → List Char → List (List Char)
  | 0, cs, cur => [cur.reverse ++ cs]
  | _ + 1, [], cur => [cur.reverse]
  | fuel + 1, c :: rest, cur =>
    if (c = '.' ∨ c = '!' ∨ c = '?') ∧ headWs rest then
      cur.reverse :: sentSplitGo fuel (rest.dropWhile jsSpace) []
    else sentSplitGo fuel rest (c :: cur)

/-- Sentence split of a whole text. -/
def sentSplit (cs : List Char) : List (List Char) :=
  sentSplitGo (cs.length + 1) cs []

/-- The direct-text heuristic: text that mentions `blame` and `leetcode`
and has no brace is split into sentences; the first three long enough
become the messages.  `none` when the branch does not return. -/
def heuristicBranch (t : List Char) : Option (List JsonValue) :=
  if hasSub t "blame".toList ∧ hasSub t "leetcode".toList ∧ ¬hasSub t ['{'] then
    let sentences := (sentSplit t).filter (fun s => 10 < s.length)
    if 0 < sentences.length then
      some ((sentences.take 3).map (fun s => .str (jsTrim s ++ ['!'])))
    else none
  else none

/-- `text.replace(/^[^{]*/, '').replace(/[^}]*$/, '')`: keep the text from
the first `{` to the last `}` (empty when either is missing). -/
def braceTrim (cs : List Char) : List Char :=
  (((cs.dropWhile (· ≠ '{')).reverse.dropWhile (· ≠ '}'))).reverse

/-- Split on a character; `n` occurrences give `n + 1` pieces. -/
def splitOnC (d : Char) : List Char → List (List Char)
  | [] => [[]]
  | c :: rest =>
    let r := splitOnC d rest
    if c = d then [] :: r
    else
      match r with
      | [] => [[c]]
      | s :: ss => (c :: s) :: ss

/-- Rejoin pieces produced by `splitOnC '"'`. -/
def joinQ : List (List Char) → List Char
  | [] => []
  | [s] => s
  | s :: rest => s ++ '"' :: joinQ rest

/-- The global replace `/"([^"]*)"([^"]*)"([^"]*)"/g → "$1\"$2\"$3"`:
quotes are consumed four at a time and the second and third of each group
gain a backslash; fewer than four remaining quotes pass unchanged. -/
def quoteFixSeg : List (List Char) → List Char
  | s0 :: s1 :: s2 :: s3 :: s4 :: rest =>
    s0 ++ '"' :: s1 ++ '\\' :: '"' :: s2 ++ '\\' :: '"' :: s3 ++ '"' ::
      quoteFixSeg (s4 :: rest)
  | segs => joinQ segs

/-- Repair step 1 of `safeParseJSON` (the unescaped-quote "fix"). -/
def quoteFix (cs : List Char) : List Char := quoteFixSeg (splitOnC '"' cs)

/-- The global replace `/"\s*"/g → '", "'`: consecutive quotes with only
whitespace between them are paired left to right. -/
def commaFixSeg : List (List Char) → List Char
  | [] => []
  | [s0] => s0
  | [s0, s1] => s0 ++ '"' :: s1
  | s0 :: s1 :: s2 :: rest =>
    if s1.all jsSpace then
      s0 ++ '"' :: ',' :: ' ' :: '"' :: commaFixSeg (s2 :: rest)
    else s0 ++ '"' :: commaFixSeg (s1 :: s2 :: rest)

/-- Repair step 2 of `safeParseJSON` (missing commas between strings). -/
def commaFix (cs : List Char) : List Char := commaFixSeg (splitOnC '"' cs)

/-- The global replace `/,\s*]/g → ']'` (trailing commas in arrays). -/
def tcFixGo : Nat → List Char → List Char
  | 0, cs => cs
  | _ + 1, [] => []
  | fuel + 1, c :: rest =>
    if c = ',' then
      match rest.dropWhile jsSpace with
      | ']' :: r => ']' :: tcFixGo fuel r
      | _ => ',' :: tcFixGo fuel rest
    else c :: tcFixGo fuel rest

/-- The trailing-comma replace on a whole text (each step consumes at
least one character, so `length + 1` fuel is never exhausted). -/
def tcFix (cs : List Char) : List Char := tcFixGo (cs.length + 1) cs

/-- All three textual repairs, in source order (after the brace trim). -/
def repairText (cs : List Char) : List Char := tcFix (commaFix (quoteFix cs))

/-- `msg.length > 150 ? msg.substring(0, 147) + '...' : msg` on a string. -/
def truncStr (s : List Char) : List Char :=
  if 150 < s.length then s.take 147 ++ "...".toList else s

/-- The same conditional applied to an arbitrary value: only strings and
arrays have `.length`; an array longer than 150 has no `.substring`, which
throws (`none`). -/
def truncLogic : JsonValue → Option JsonValue
  | .str s => some (.str (truncStr s))
  | .arr xs => if 150 < xs.length then none else some (.arr xs)
  | v => some v

/-- Does the canonical filter reject this element (`msg !== "blameMessages"
&& msg !== "blameMessages\\"` negated)? -/
def isBlameEcho (v : JsonValue) : Bool :=
  match v with
  | .str s => s = bmKey ∨ s = bmEsc
  | _ => false

/-- One element of the canonical `blameMessages` array: strings are
truncated, anything else is `JSON.stringify`-ed and cut to 100. -/
def canonEl : JsonValue → JsonValue
  | .str s => .str (truncStr s)
  | v => .str ((stringify v).take 100)

/-- Control flow of one branch of the post-parse cascade: an explicit
`return`, a fall-through to the next branch, or a thrown error. -/
inductive DFlow where
  | ret (msgs : List JsonValue)
  | fall
  | err

/-- The `parsedJson.blameMessages` branch of `safeParseJSON`. -/
def canonicalFlow (j : JsonValue) : DFlow :=
  match getField j bmKey with
  | some v =>
    if truthy v then
      match v with
      | .str s => .ret [.str s]
      | .arr xs =>
        let filtered := xs.filter (fun x => ¬isBlameEcho x)
        if filtered.isEmpty then .ret DEFAULT_BLAME_VALUES
        else .ret (filtered.map canonEl)
      | _ => .fall
    else .fall
  | none => .fall

/-- One element of the `trollReminders` array: `item.message || item.text
|| JSON.stringify(item)` then the truncation conditional; property access
on `null` throws. -/
def trollStep : JsonValue → Option JsonValue
  | .str s => some (.str (truncStr s))
  | .null => none
  | v =>
    truncLogic (jsOr (getField v "message".toList)
      (jsOr (getField v "text".toList) (.str (stringify v))))

/-- `array.map(f)` where the callback can throw: `none` aborts at the
first throwing element. -/
def mapOpt (f : α → Option β) : List α → Option (List β)
  | [] => some []
  | x :: rest =>
    match f x with
    | none => none
    | some y => (mapOpt f rest).map (y :: ·)

/-- The `parsedJson.trollReminders` branch. -/
def trollFlow (j : JsonValue) : DFlow :=
  match getField j "trollReminders".toList with
  | some v =>
    if truthy v then
      match v with
      | .arr xs =>
        if 0 < xs.length then
          match mapOpt trollStep xs with
          | none => .err
          | some mapped =>
            let msgs := mapped.filter truthy
            if 0 < msgs.length then .ret msgs else .fall
        else .fall
      | _ => .fall
    else .fall
  | none => .fall

/-- The first truthy value of `item.message`, `item.text`, `item.content`
(the generic scan's `else if` chain). -/
def pick3 (v : JsonValue) : Option JsonValue :=
  let ifTruthy : Option JsonValue → Option JsonValue :=
    fun o => o.bind (fun m => if truthy m then some m else none)
  (ifTruthy (getField v "message".toList)).orElse fun _ =>
    (ifTruthy (getField v "text".toList)).orElse fun _ =>
      ifTruthy (getField v "content".toList)

/-- One element of a generically scanned array: `some (some msg)` a
message, `some none` the callback's `return null`, `none` a throw. -/
def genericStep : JsonValue → Option (Option JsonValue)
  | .str s => some (some (.str (truncStr s)))
  | .null => none
  | v =>
    match pick3 v with
    | some m => (truncLogic m).map some
    | none => some none

/-- Truthy-and-array check `x && Array.isArray(x)` (an array is always
truthy). -/
def asArr (o : Option JsonValue) : Option (List JsonValue) :=
  match o with
  | some (.arr xs) => some xs
  | _ => none

/-- Numeric value of an all-digit key. -/
def keyNatVal (k : List Char) : Nat :=
  k.foldl (fun a c => a * 10 + (c.toNat - 48)) 0

/-- Is the key an array-index key (`for…in` lists those first, in
ascending numeric order)? -/
def isIdxKey (k : List Char) : Bool :=
  ¬k.isEmpty ∧ k.all isDig ∧ (k = ['0'] ∨ k.headD '0' ≠ '0') ∧
    keyNatVal k < 4294967295

/-- Insertion into an index-key list sorted by numeric value. -/
def insertIdx (k : List Char) : List (List Char) → List (List Char)
  | [] => [k]
  | j :: rest =>
    if keyNatVal k < keyNatVal j then k :: j :: rest else j :: insertIdx k rest

/-- Sort index keys ascending. -/
def sortIdx : List (List Char) → List (List Char)
  | [] => []
  | k :: rest => insertIdx k (sortIdx rest)

/-- `for (const key in obj)` enumeration order: array-index keys ascending
first, then the remaining keys in insertion order. -/
def forInKeys : JsonValue → List (List Char)
  | .obj fs =>
    let ks := fs.map (·.1)
    sortIdx (ks.filter isIdxKey) ++ ks.filter (fun k => ¬isIdxKey k)
  | _ => []

/-- The generic array scan over the object's keys: the first array field
whose extracted messages are non-empty wins; a throw abandons the scan. -/
def genericScan (j : JsonValue) : List (List Char) → Option (List JsonValue)
  | [] => none
  | k :: rest =>
    match asArr (getField j k) with
    | some xs =>
      if 0 < xs.length then
        match mapOpt genericStep xs with
        | none => none
        | some lst =>
          let extracted := lst.filterMap
            (fun o => o.bind (fun v => if truthy v then some v else none))
          if 0 < extracted.length then some extracted else genericScan j rest
      else genericScan j rest
    | none => genericScan j rest

/-- Is the parsed value `null` (property access on it throws)? -/
def isNullV : JsonValue → Bool
  | .null => true
  | _ => false

/-- The whole post-`JSON.parse` cascade of `safeParseJSON`.  `none` covers
both a fall-through and a thrown error: either way the text salvages run
next. -/
def dispatchBlame (j : JsonValue) : Option (List JsonValue) :=
  if isNullV j then none
  else
    match canonicalFlow j with
    | .ret m => some m
    | .err => none
    | .fall =>
      match trollFlow j with
      | .ret m => some m
      | .err => none
      | .fall => genericScan j (forInKeys j)

/-- A quoted run: at a `"`, at least one non-quote character, then a `"`;
the content and the rest after the closing quote. -/
def takeQuoted : List Char → Option (List Char × List Char)
  | '"' :: rest =>
    let content := rest.takeWhile (· ≠ '"')
    if content.isEmpty then none
    else
      match rest.dropWhile (· ≠ '"') with
      | '"' :: r => some (content, r)
      | _ => none
  | _ => none

/-- The literal `"blameMessages"` with its quotes. -/
def litKey : List Char := '"' :: "blameMessages".toList ++ ['"']

/-- Up to `n` further optional `,\s*"([^"]+)"\s*` groups, then the
mandatory `]`. -/
def salvageMore : Nat → List Char → List (List Char) → Option (List (List Char))
  | _, ']' :: _, acc => some acc
  | 0, _, _ => none
  | n + 1, ',' :: r, acc =>
    match takeQuoted (r.dropWhile jsSpace) with
    | some (g, r2) => salvageMore n (r2.dropWhile jsSpace) (acc ++ [g])
    | none => none
  | _ + 1, _, _ => none

/-- Try the blame-message salvage regex at this exact position. -/
def salvageAt (cs : List Char) : Option (List (List Char)) :=
  if litKey.isPrefixOf cs then
    match (cs.drop litKey.length).dropWhile jsSpace with
    | ':' :: r2 =>
      match r2.dropWhile jsSpace with
      | '[' :: r3 =>
        match takeQuoted (r3.dropWhile jsSpace) with
        | some (g1, r4) => salvageMore 2 (r4.dropWhile jsSpace) [g1]
        | none => none
      | _ => none
    | _ => none
  else none

/-- Leftmost match of the salvage regex. -/
def salvageScan : List Char → Option (List (List Char))
  | [] => none
  | c :: rest =>
    match salvageAt (c :: rest) with
    | some gs => some gs
    | none => salvageScan rest

/-- The regex salvage
`/"blameMessages"\s*:\s*\[\s*"([^"]+)"\s*(?:,\s*"([^"]+)"\s*)?(?:,\s*"([^"]+)"\s*)?\]/`:
the captured groups, truncated. -/
def blameSalvage (cs : List Char) : Option (List JsonValue) :=
  match salvageScan cs with
  | some gs =>
    let messages := gs.map truncStr
    if 0 < messages.length then some (messages.map .str) else none
  | none => none

/-- All matches of `/"([^"]{10,150})"/g` over the quote segments: pairs of
consecutive quotes whose gap is 10–150 non-quote characters, scanned left
to right, both quotes consumed on a match. -/
def quotedScan : List (List Char) → List (List Char)
  | _ :: b :: c :: rest =>
    if 10 ≤ b.length ∧ b.length ≤ 150 then b :: quotedScan (c :: rest)
    else quotedScan (b :: c :: rest)
  | _ => []

/-- The final quoted-substring salvage: up to three plausible-length
quoted strings. -/
def quotedSalvage (cs : List Char) : Option (List JsonValue) :=
  let found := quotedScan (splitOnC '"' cs)
  if 0 < found.length then some ((found.take 3).map .str) else none

/-- Everything `safeParseJSON` does after the heuristic: strict parse with
its cascade, then the two text salvages.  `none` means the default set. -/
def structuralMessages (t2 : List Char) : Option (List JsonValue) :=
  match (jsonParse t2).bind dispatchBlame with
  | some m => some m
  | none =>
    match blameSalvage t2 with
    | some m => some m
    | none => quotedSalvage t2

/-- `safeParseJSON` of the popup, on raw completion text. -/
def safeParseCore (cs : List Char) : List JsonValue :=
  let t1 := fenceExtract cs
  match heuristicBranch t1 with
  | some m => m
  | none =>
    match structuralMessages (repairText (braceTrim t1)) with
    | some m => m
    | none => DEFAULT_BLAME_VALUES

/-- The record `safeParseJSON` resolves to. -/
structure BlameMessageResult where
  blameMessages : List JsonValue

/-- `safeParseJSON` on a string. -/
def safeParseJSON (s : String) : BlameMessageResult :=
  ⟨safeParseCore s.toList⟩

/-! ## The popup's task-detection normalization (`parseTasks`, part_000) -/

/-- The record `parseTasks` returns.  `category` is whatever value
`parsedJson.category || 'general'` produces at runtime (the source's type
annotation says string, the code does not enforce it). -/
structure TaskDetectionResult where
  category : JsonValue
  detectedTasks : List JsonValue

/-- A constructed task object `{text: …, deadline: …}`; an `undefined`
deadline is modelled as an absent field (every later read treats the two
alike). -/
def mkTask (txt : JsonValue) (dl : Option JsonValue) : JsonValue :=
  .obj (("text".toList, txt) ::
    (match dl with
     | some d => [("deadline".toList, d)]
     | none => []))

/-- First present-and-truthy value of a `a || b || c` chain. -/
def firstTruthy : List (Option JsonValue) → Option JsonValue
  | [] => none
  | o :: rest =>
    match o with
    | some v => if truthy v then some v else firstTruthy rest
    | none => firstTruthy rest

/-- One element of the `tasks` synonym array: property access on `null`
throws (`none`); otherwise build `{text, deadline}` from the synonym
fields. -/
def taskMapEl : JsonValue → Option JsonValue
  | .null => none
  | t =>
    some (mkTask
      ((firstTruthy [getField t "text".toList, getField t "task".toList,
        getField t "name".toList, getField t "description".toList]).getD (.str []))
      (firstTruthy [getField t "deadline".toList, getField t "due".toList,
        getField t "dueDate".toList]))

/-- Is the optional value present and truthy? -/
def truthyOpt (o : Option JsonValue) : Bool :=
  match o with
  | some v => truthy v
  | none => false

/-- Lower-casing for the keyword check (`Char.toLower` is ASCII-only; the
keywords themselves are already lower case). -/
def lowerAll (cs : List Char) : List Char := cs.map Char.toLower

/-- The catch branch of `parseTasks`: the text here is the transformed
text (fence-extracted and brace-trimmed), not the raw input. -/
def parseTasksCatch (t : List Char) : TaskDetectionResult :=
  if t.length < 100 ∧ ¬hasSub t ['\n', '\n'] then
    ⟨.str "general".toList, [mkTask (.str (jsTrim t)) none]⟩
  else ⟨.str "general".toList, []⟩

/-- The keyword special case and final assembly of the try branch. -/
def finishTasks (t : List Char) (parsedJson : JsonValue) (category : JsonValue)
    (dts : List JsonValue) : TaskDetectionResult :=
  if dts.isEmpty then
    let low := lowerAll t
    if hasSub low "task".toList ∨ hasSub low "công việc".toList ∨
        hasSub low "làm".toList ∨ hasSub low "deadline".toList then
      ⟨category, [mkTask (jsOr (getField parsedJson "message".toList) (.str t)) none]⟩
    else ⟨category, []⟩
  else ⟨category, dts⟩

/-- `parseTasks` of the popup, on raw completion text. -/
def parseTasksCore (cs : List Char) : TaskDetectionResult :=
  let t := braceTrim (fenceExtract cs)
  match jsonParse t with
  | none => parseTasksCatch t
  | some parsedJson =>
    let category := jsOr (getField parsedJson "category".toList) (.str "general".toList)
    match asArr (getField parsedJson "detectedTasks".toList) with
    | some xs => finishTasks t parsedJson category xs
    | none =>
      match asArr (getField parsedJson "tasks".toList) with
      | some xs =>
        match mapOpt taskMapEl xs with
        | none => parseTasksCatch t
        | some mapped => finishTasks t parsedJson category mapped
      | none =>
        if truthyOpt (getField parsedJson "text".toList) ∨
            truthyOpt (getField parsedJson "task".toList) then
          finishTasks t parsedJson category
            [mkTask
              ((firstTruthy [getField parsedJson "text".toList,
                getField parsedJson "task".toList,
                getField parsedJson "description".toList]).getD (.str []))
              (firstTruthy [getField parsedJson "deadline".toList,
                getField parsedJson "due".toList,
                getField parsedJson "dueDate".toList])]
        else finishTasks t parsedJson category []

/-- `parseTasks` on a string. -/
def parseTasks (s : String) : TaskDetectionResult := parseTasksCore s.toList

/-! ## The background service worker (`background.ts`) -/

namespace Background

/-- A stored task (`Todo` of background.ts; only the fields the scheduler
reads and writes). -/
structure Todo where
  id : String
  text : String
  created : Nat
  completed : Bool
  timeExpired : Bool
  dueDate : Option Nat
  deadline : Option String
  category : Option String
  customBlameMessages : Option (List String)
deriving DecidableEq

/-- The AI configuration as `checkTasks` reads it (an absent `apiKey` and
the empty string are indistinguishable there: both falsy). -/
structure AIConfig where
  enabled : Bool
  apiKey : String
  provider : String
deriving DecidableEq

/-- One entry of the `pendingBlameMessages` queue. -/
structure PendingBlameMessage where
  message : String
  timestamp : Nat
  taskId : Option String
deriving DecidableEq

/-- The storage state the scheduler works on. -/
structure SchedState where
  todos : List Todo
  pendingBlameMessages : List PendingBlameMessage
  aiConfig : Option AIConfig
deriving DecidableEq

/-- Per-tick oracles: `wire` is the completion text the provider's
envelope yields for a task's request (`none` = transport/HTTP failure,
a thrown fetch error); `pick` the `Math.random` draw of `getRandomItem`. -/
structure TickEnv where
  wire : Todo → Option String
  pick : Todo → Nat

/-- Background `DEFAULT_BLAME_MESSAGES` (the fallback set of
background.ts, distinct from the popup's). -/
def DEFAULT_BLAME_MESSAGES : List JsonValue := [
  .str "⚠️ Công việc của bạn đã quá hạn!".toList,
  .str "⏰ Bạn đã không hoàn thành công việc đúng hạn.".toList,
  .str "🔥 Thời gian đã hết! Công việc chưa hoàn thành.".toList,
  .str "😱 Bạn đã trễ hạn cho công việc này rồi!".toList]

/-- `generateWithOpenAI`: parse the content as JSON and read
`blameMessages`; on a parse error split into non-blank lines; defaults
otherwise. -/
def generateWithOpenAI (wire : Option String) : List JsonValue :=
  match wire with
  | none => DEFAULT_BLAME_MESSAGES
  | some raw =>
    let content := jsTrim raw.toList
    match jsonParse content with
    | some j =>
      if truthy j then
        match getField j bmKey with
        | some v =>
          if truthy v then
            match v with
            | .arr xs => if 0 < xs.length then xs else DEFAULT_BLAME_MESSAGES
            | _ => DEFAULT_BLAME_MESSAGES
          else DEFAULT_BLAME_MESSAGES
        | none => DEFAULT_BLAME_MESSAGES
      else DEFAULT_BLAME_MESSAGES
    | none =>
      let msgs := (splitOnC '\n' content).filter (fun l => ¬(jsTrim l).isEmpty)
      if 0 < msgs.length then msgs.map .str else DEFAULT_BLAME_MESSAGES

/-- `generateWithGemini`: same parse logic as the OpenAI wrapper, behind
the Gemini envelope. -/
def generateWithGemini (wire : Option String) : List JsonValue :=
  match wire with
  | none => DEFAULT_BLAME_MESSAGES
  | some raw =>
    let content := jsTrim raw.toList
    match jsonParse content with
    | some j =>
      if truthy j then
        match getField j bmKey with
        | some v =>
          if truthy v then
            match v with
            | .arr xs => if 0 < xs.length then xs else DEFAULT_BLAME_MESSAGES
            | _ => DEFAULT_BLAME_MESSAGES
          else DEFAULT_BLAME_MESSAGES
        | none => DEFAULT_BLAME_MESSAGES
      else DEFAULT_BLAME_MESSAGES
    | none =>
      let msgs := (splitOnC '\n' content).filter (fun l => ¬(jsTrim l).isEmpty)
      if 0 < msgs.length then msgs.map .str else DEFAULT_BLAME_MESSAGES

/-- First match of `/\{[\s\S]*?\}/`: from the first `{` to the first `}`
after it, inclusive. -/
def firstBraceChunk (cs : List Char) : Option (List Char) :=
  match cs.dropWhile (· ≠ '{') with
  | [] => none
  | _ :: rest =>
    match rest.dropWhile (· ≠ '}') with
    | '}' :: _ => some ('{' :: rest.takeWhile (· ≠ '}') ++ ['}'])
    | _ => none

/-- After the leading digit run, is the next character `.` or `)`? -/
def digitPunct (l : List Char) : Bool :=
  match l.dropWhile isDig with
  | '.' :: _ => true
  | ')' :: _ => true
  | _ => false

/-- Does the trimmed line start a bulleted or numbered list item
(`-`, `•`, or the regex test `/^\d+[\.\)]/`)? -/
def isBulletLine (l : List Char) : Bool :=
  match l with
  | '-' :: _ => true
  | '•' :: _ => true
  | c :: _ => isDig c ∧ digitPunct l
  | [] => false

/-- `line.replace(/^[-•]|^\d+[\.\)]/, '').trim()`. -/
def cleanBullet (l : List Char) : List Char :=
  match l with
  | '-' :: rest => jsTrim rest
  | '•' :: rest => jsTrim rest
  | _ =>
    if ¬(l.takeWhile isDig).isEmpty ∧ digitPunct l then
      jsTrim ((l.dropWhile isDig).drop 1)
    else jsTrim l

/-- `generateWithOpenRouter`: extract the first brace chunk and read its
`blameMessages`; fall back to bulleted lines, then to plain short lines,
then to the defaults. -/
def generateWithOpenRouter (wire : Option String) : List JsonValue :=
  match wire with
  | none => DEFAULT_BLAME_MESSAGES
  | some raw =>
    let content := jsTrim raw.toList
    let fromJson : Option (List JsonValue) :=
      match firstBraceChunk content with
      | some chunk =>
        match jsonParse chunk with
        | some j =>
          if truthy j then
            match getField j bmKey with
            | some v =>
              if truthy v then
                match v with
                | .arr xs =>
                  let valid := xs.filterMap (fun m =>
                    match m with
                    | .str s =>
                      if ¬(jsTrim s).isEmpty then some (JsonValue.str (jsTrim s))
                      else none
                    | _ => none)
                  if 0 < valid.length then some valid else none
                | _ => none
              else none
            | none => none
          else none
        | none => none
      | none => none
    match fromJson with
    | some msgs => msgs
    | none =>
      let bullets := ((splitOnC '\n' content).map jsTrim).filter
        (fun l => ¬l.isEmpty ∧ isBulletLine l)
      if 0 < bullets.length then (bullets.map cleanBullet).map .str
      else
        let allLines := ((splitOnC '\n' content).map jsTrim).filter (fun l =>
          ¬l.isEmpty ∧ ¬hasSub l ['{'] ∧ ¬hasSub l ['}'] ∧
          ¬hasSub l bmKey ∧ l.length < 150)
        if 0 < allLines.length then allLines.map .str
        else DEFAULT_BLAME_MESSAGES

/-- `generateBlameMessage`: defaults when AI is off or keyless, else the
selected provider's result (total: every provider wrapper catches its own
errors). -/
def generateBlameMessage (wire : Option String) (cfg : AIConfig) : List JsonValue :=
  if ¬cfg.enabled ∨ cfg.apiKey = "" then DEFAULT_BLAME_MESSAGES
  else
    match cfg.provider with
    | "openai" => generateWithOpenAI wire
    | "openrouter" => generateWithOpenRouter wire
    | "gemini" => generateWithGemini wire
    | _ => DEFAULT_BLAME_MESSAGES

/-- The `aiConfig` default of `checkTasks` when storage has none. -/
def defaultAIConfig : AIConfig := ⟨true, "", "openrouter"⟩

/-- The deterministic fallback notification text. -/
def templateMsg (t : Todo) : String :=
  "⏰ Hết giờ cho công việc: \"" ++ t.text ++ "\""

/-- One task of a `checkTasks` tick: the updated task and the
notifications pushed for it (`pushNotificationImmediately` appends to the
pending queue; badge and platform alert carry no further state here). -/
def todoStep (cfg : AIConfig) (env : TickEnv) (now : Nat) (todo : Todo) :
    Todo × List PendingBlameMessage :=
  if todo.completed then (todo, [])
  else if todo.timeExpired then (todo, [])
  else
    let createdTime := if todo.created = 0 then now - 5000 else todo.created
    let expiryTime :=
      match todo.dueDate with
      | some d => d
      | none => createdTime + 10 * 1000
    if expiryTime ≤ now then
      let todo1 := { todo with timeExpired := true }
      let result :=
        if cfg.enabled ∧ cfg.apiKey ≠ "" then
          let blameMessages := generateBlameMessage (env.wire todo) cfg
          if 0 < blameMessages.length then
            let valid := blameMessages.filterMap (fun m =>
              match m with
              | .str s => if 10 < (jsTrim s).length then some (String.mk s) else none
              | _ => none)
            if 0 < valid.length then
              (if 1 < valid.length then { todo1 with customBlameMessages := some valid }
               else todo1,
               valid.getD (env.pick todo % valid.length) "")
            else (todo1, templateMsg todo)
          else (todo1, templateMsg todo)
        else (todo1, templateMsg todo)
      (result.1, [⟨result.2, now, some todo.id⟩])
    else (todo, [])

/-- The configuration a tick works with: the stored one or the default,
with a falsy provider forced to `openrouter`. -/
def cfgOf (s : SchedState) : AIConfig :=
  let cfg0 := s.aiConfig.getD defaultAIConfig
  if cfg0.provider = "" then { cfg0 with provider := "openrouter" } else cfg0

/-- One `checkTasks` tick over the stored state. -/
def checkTasks (env : TickEnv) (now : Nat) (s : SchedState) : SchedState :=
  if s.todos.isEmpty then s
  else
    { s with
      todos := s.todos.map (fun t => (todoStep (cfgOf s) env now t).1),
      pendingBlameMessages := s.pendingBlameMessages ++
        (s.todos.map (fun t => (todoStep (cfgOf s) env now t).2)).flatten }

/-- A sequence of ticks, oldest first. -/
def runTicks (ticks : List (TickEnv × Nat)) (s : SchedState) : SchedState :=
  ticks.foldl (fun st p => checkTasks p.1 p.2 st) s

/-- The stored AI configuration as `checkAndUpdateAISettings` reads it
(`none` = the field is absent). -/
structure StoredAIConfig where
  provider : Option String
  enabled : Option Bool
  apiKey : Option String
deriving DecidableEq

/-- `checkAndUpdateAISettings` of background.ts: the configuration the
startup check writes back (or leaves) in storage. -/
def checkAndUpdateAISettings (stored : Option StoredAIConfig) : StoredAIConfig :=
  let c := stored.getD ⟨none, none, none⟩
  let c1 :=
    if c.provider.getD "" = "" ∨ c.provider = some "openai" then
      { c with provider := some "openrouter" }
    else c
  if c1.enabled = none then { c1 with enabled := some true } else c1

end Background

/-! ## Non-emptiness of every branch of the normalization engine -/

/-- The popup default set has 16 entries. -/
theorem DEFAULT_BLAME_VALUES_pos : 0 < DEFAULT_BLAME_VALUES.length := by
  decide

/-- The direct-text heuristic never returns an empty list. -/
theorem heuristicBranch_pos {t : List Char} {m : List JsonValue}
    (h : heuristicBranch t = some m) : 0 < m.length := by
  unfold heuristicBranch at h
  dsimp only at h
  split at h
  · split at h
    · rename_i hs
      injection h with h1
      subst h1
      simp only [List.length_map, List.length_take]
      omega
    · simp at h
  · simp at h

/-- The canonical `blameMessages` branch never returns an empty list. -/
theorem canonicalFlow_ret_pos {j : JsonValue} {m : List JsonValue}
    (h : canonicalFlow j = .ret m) : 0 < m.length := by
  unfold canonicalFlow at h
  dsimp only at h
  split at h
  · split at h
    · split at h
      · injection h with h1
        subst h1
        simp
      · split at h
        · injection h with h1
          subst h1
          decide
        · rename_i hne
          injection h with h1
          subst h1
          simp only [List.length_map, List.length_pos]
          simpa using hne
      · simp at h
    · simp at h
  · simp at h

/-- The `trollReminders` branch never returns an empty list. -/
theorem trollFlow_ret_pos {j : JsonValue} {m : List JsonValue}
    (h : trollFlow j = .ret m) : 0 < m.length := by
  unfold trollFlow at h
  dsimp only at h
  split at h
  · split at h
    · split at h
      · split at h
        · split at h
          · simp at h
          · split at h
            · rename_i hpos
              injection h with h1
              subst h1
              exact hpos
            · simp at h
        · simp at h
      · simp at h
    · simp at h
  · simp at h

/-- The generic array scan never returns an empty list. -/
theorem genericScan_pos {j : JsonValue} {ks : List (List Char)}
    {m : List JsonValue} (h : genericScan j ks = some m) : 0 < m.length := by
  induction ks with
  | nil => simp [genericScan] at h
  | cons k rest ih =>
    unfold genericScan at h
    split at h
    · split at h
      · split at h
        · simp at h
        · dsimp only at h
          split at h
          · rename_i hpos
            injection h with h1
            subst h1
            exact hpos
          · exact ih h
      · exact ih h
    · exact ih h

/-- The whole post-parse cascade never returns an empty list. -/
theorem dispatchBlame_pos {j : JsonValue} {m : List JsonValue}
    (h : dispatchBlame j = some m) : 0 < m.length := by
  unfold dispatchBlame at h
  split at h
  · simp at h
  · split at h
    · rename_i hc
      injection h with h1
      subst h1
      exact canonicalFlow_ret_pos hc
    · simp at h
    · split at h
      · rename_i ht
        injection h with h1
        subst h1
        exact trollFlow_ret_pos ht
      · simp at h
      · exact genericScan_pos h

/-- The regex salvage never returns an empty list. -/
theorem blameSalvage_pos {cs : List Char} {m : List JsonValue}
    (h : blameSalvage cs = some m) : 0 < m.length := by
  unfold blameSalvage at h
  dsimp only at h
  split at h
  · split at h
    · rename_i hpos
      injection h with h1
      subst h1
      simp only [List.length_map] at hpos ⊢
      exact hpos
    · simp at h
  · simp at h

/-- The quoted-substring salvage never returns an empty list. -/
theorem quotedSalvage_pos {cs : List Char} {m : List JsonValue}
    (h : quotedSalvage cs = some m) : 0 < m.length := by
  unfold quotedSalvage at h
  dsimp only at h
  split at h
  · rename_i hpos
    injection h with h1
    subst h1
    simp only [List.length_map, List.length_take]
    omega
  · simp at h

/-- The structural stage never returns an empty list. -/
theorem structuralMessages_pos {t : List Char} {m : List JsonValue}
    (h : structuralMessages t = some m) : 0 < m.length := by
  unfold structuralMessages at h
  split at h
  · rename_i hd
    injection h with h1
    subst h1
    cases hp : jsonParse t with
    | none =>
      rw [hp] at hd
      exact Option.noConfusion hd
    | some j =>
      rw [hp] at hd
      exact dispatchBlame_pos hd
  · split at h
    · rename_i hb
      injection h with h1
      subst h1
      exact blameSalvage_pos hb
    · exact quotedSalvage_pos h

/-- `safeParseCore` always yields at least one message. -/
theorem safeParseCore_pos (cs : List Char) : 0 < (safeParseCore cs).length := by
  unfold safeParseCore
  dsimp only
  split
  · rename_i m hh
    exact heuristicBranch_pos hh
  · split
    · rename_i m hs
      exact structuralMessages_pos hs
    · exact DEFAULT_BLAME_VALUES_pos

/-- C1.  For every raw text input, the blame-message normalization function
(`safeParseJSON` in the popup app) never throws — it is a total function in
this embedding, every internal failure being a value — and returns a record
whose `blameMessages` array has length at least 1; any internal failure
degrades to the built-in default reminder set `DEFAULT_BLAME_MESSAGES`. -/
theorem safeParseJSON_never_empty (s : String) :
    1 ≤ (safeParseJSON s).blameMessages.length :=
  safeParseCore_pos s.toList

/-! ## Concrete behaviour of the engine on the spec's scenarios -/

/-- C3.  What the code actually returns on Scenario A and on the fenced
Scenario B: the quote-"fix" `/"([^"]*)"([^"]*)"([^"]*)"/g` rewrites the
canonical response to `\x7b"blameMessages\\":[\\"Do it now!","Hurry up!"]\x7d`,
`JSON.parse` then fails, and the quoted-substring salvage returns
`["blameMessages\\", "Do it now!"]` — not `["Do it now!", "Hurry up!"]`.
Both scenarios yield this same (wrong) result. -/
theorem safeParseJSON_scenarioA_actual :
    (safeParseJSON "\x7b\"blameMessages\":[\"Do it now!\",\"Hurry up!\"]\x7d").blameMessages
      = [.str "blameMessages\\".toList, .str "Do it now!".toList] ∧
    (safeParseJSON "```json\n\x7b\"blameMessages\":[\"Do it now!\",\"Hurry up!\"]\x7d\n```").blameMessages
      = [.str "blameMessages\\".toList, .str "Do it now!".toList] :=
  ⟨rfl, rfl⟩

/-- C6 counterexample.  Scenario C's input contains no literal `blame`, so
the direct-text heuristic does not fire; with no brace in the text the
brace trim empties it, every structural stage fails, and the function
returns the built-in default set — not a sentence-split of the input. -/
theorem safeParseJSON_scenarioC_default :
    (safeParseJSON "Just do your leetcode task already, come on!").blameMessages
      = DEFAULT_BLAME_VALUES :=
  rfl

/-- C6 as amended.  The sentence-splitting branch fires exactly when the
(unfenced) text contains both `blame` and `leetcode` and no `\x7b`, and some
sentence is longer than 10 characters; the result is then the first three
such sentences, trimmed, each with `!` appended. -/
theorem safeParseJSON_sentence_split (t : List Char)
    (hf : ¬hasSub t fenceTicks)
    (hb : hasSub t "blame".toList)
    (hl : hasSub t "leetcode".toList)
    (hnb : ¬hasSub t ['{'])
    (hs : 0 < ((sentSplit t).filter (fun s => 10 < s.length)).length) :
    safeParseCore t =
      (((sentSplit t).filter (fun s => 10 < s.length)).take 3).map
        (fun s => .str (jsTrim s ++ ['!'])) := by
  have hfe : fenceExtract t = t := by
    unfold fenceExtract
    rw [if_neg]
    simpa using hf
  have hh : heuristicBranch t =
      some ((((sentSplit t).filter (fun s => 10 < s.length)).take 3).map
        (fun s => .str (jsTrim s ++ ['!']))) := by
    unfold heuristicBranch
    rw [if_pos ⟨hb, hl, by simpa using hnb⟩]
    dsimp only
    rw [if_pos hs]
  unfold safeParseCore
  dsimp only
  rw [hfe, hh]

/-- C6 witness: an input whose text does contain `blame` fires the
heuristic and is split on sentence boundaries. -/
theorem safeParseJSON_sentence_split_w :
    safeParseCore "Just do your blame leetcode task already, come on!".toList =
      (((sentSplit "Just do your blame leetcode task already, come on!".toList).filter
        (fun s => 10 < s.length)).take 3).map (fun s => .str (jsTrim s ++ ['!'])) :=
  safeParseJSON_sentence_split _ (by decide) (by decide) (by decide) (by decide)
    (by decide)

/-- C9 counterexample.  `parseTasks` can return a non-string `category`
(the input's own value, here the number 5), and on a brace-free short
input the single task's label is the brace-trimmed text — the empty
string — not the raw input. -/
theorem parseTasks_not_as_specified :
    (parseTasks "\x7b\"category\":5\x7d").category = JsonValue.num ['5'] ∧
    (parseTasks "leetcode tonight").detectedTasks = [mkTask (.str []) none] :=
  ⟨rfl, rfl⟩

/-- C9 as amended.  `parseTasks` never throws; when strict parsing of the
fence-extracted, brace-trimmed text fails and that transformed text is
short (length < 100, no blank-line break), the result has category
`general` and the transformed text, trimmed, as the single detected task's
label. -/
theorem parseTasks_catch_short (s : String)
    (hp : (jsonParse (braceTrim (fenceExtract s.toList))).isNone = true)
    (hlen : (braceTrim (fenceExtract s.toList)).length < 100)
    (hnl : ¬hasSub (braceTrim (fenceExtract s.toList)) ['\n', '\n']) :
    parseTasks s = ⟨.str "general".toList,
      [mkTask (.str (jsTrim (braceTrim (fenceExtract s.toList)))) none]⟩ := by
  rw [Option.isNone_iff_eq_none] at hp
  unfold parseTasks parseTasksCore
  dsimp only
  rw [hp]
  unfold parseTasksCatch
  rw [if_pos ⟨hlen, by simpa using hnl⟩]

/-- C9 witness: a short brace-free input lands in the catch branch with
the transformed (here empty) label. -/
theorem parseTasks_catch_short_w :
    parseTasks "leetcode tonight" = ⟨.str "general".toList,
      [mkTask (.str (jsTrim (braceTrim (fenceExtract "leetcode tonight".toList)))) none]⟩ :=
  parseTasks_catch_short _ (by decide) (by decide) (by decide)

/-! ## The canonical filter (C5) and truncation (C4) -/

/-- C5.  When the parsed response's `blameMessages` is an array, the
literal string `"blameMessages"` (and the artifact `"blameMessages\\"`)
is filtered out of it; the result is the default set when the filter
empties the array, and the truncation-mapped filtered array otherwise —
in particular no element of the filtered array is the literal
`"blameMessages"`. -/
theorem dispatchBlame_rejects_echo (fields : List (List Char × JsonValue))
    (arr : List JsonValue)
    (h : getField (.obj fields) bmKey = some (.arr arr)) :
    dispatchBlame (.obj fields) =
      some (if (arr.filter (fun x => ¬isBlameEcho x)).isEmpty then
        DEFAULT_BLAME_VALUES
        else (arr.filter (fun x => ¬isBlameEcho x)).map canonEl) ∧
    ∀ x ∈ arr.filter (fun x => ¬isBlameEcho x), x ≠ .str bmKey := by
  constructor
  · have hc : canonicalFlow (.obj fields) =
        .ret (if (arr.filter (fun x => ¬isBlameEcho x)).isEmpty then
          DEFAULT_BLAME_VALUES
          else (arr.filter (fun x => ¬isBlameEcho x)).map canonEl) := by
      unfold canonicalFlow
      rw [h]
      dsimp only
      rw [if_pos (by simp [truthy])]
      split
      · rfl
      · rfl
    unfold dispatchBlame
    rw [if_neg (fun hco => Bool.noConfusion hco), hc]
  · intro x hx contra
    have hmem := List.of_mem_filter hx
    subst contra
    revert hmem
    decide

/-- C5 witness: a concrete array containing the literal. -/
theorem dispatchBlame_rejects_echo_w :
    dispatchBlame (.obj [(bmKey,
        .arr [.str bmKey, .str "Lam bai di ban oi, nhanh len!".toList])]) =
      some (if (([.str bmKey,
          .str "Lam bai di ban oi, nhanh len!".toList] : List JsonValue).filter
          (fun x => ¬isBlameEcho x)).isEmpty then DEFAULT_BLAME_VALUES
        else (([.str bmKey,
          .str "Lam bai di ban oi, nhanh len!".toList] : List JsonValue).filter
          (fun x => ¬isBlameEcho x)).map canonEl) ∧
    ∀ x ∈ ([.str bmKey,
        .str "Lam bai di ban oi, nhanh len!".toList] : List JsonValue).filter
        (fun x => ¬isBlameEcho x), x ≠ .str bmKey :=
  dispatchBlame_rejects_echo _ _ rfl

/-- C4 counterexample.  The string-value branch (`blameMessages` a bare
string) returns the string as one message with no truncation: a 200
character value stays 200 characters. -/
theorem dispatchBlame_string_value_untruncated :
    dispatchBlame (.obj [(bmKey, .str (List.replicate 200 'x'))]) =
      some [.str (List.replicate 200 'x')] ∧
    150 < (List.replicate 200 'x').length := by
  constructor
  · rfl
  · simp only [List.length_replicate]
    omega

/-- A result message obeys the truncation policy: if it is a string, it is
the image of some string under the 150/147-truncation (hence at most 150
characters). -/
def truncImage (m : JsonValue) : Prop :=
  ∀ s, m = JsonValue.str s → s.length ≤ 150 ∧ ∃ orig, s = truncStr orig

/-- The truncation never yields more than 150 characters. -/
theorem truncStr_le (s : List Char) : (truncStr s).length ≤ 150 := by
  unfold truncStr
  split
  · have h3 : ("...".toList : List Char).length = 3 := rfl
    simp only [List.length_append, List.length_take, h3]
    omega
  · omega

/-- Short strings are their own truncation image. -/
theorem truncStr_self {s : List Char} (h : s.length ≤ 150) : truncStr s = s := by
  unfold truncStr
  rw [if_neg]
  omega

/-- A short string satisfies the policy. -/
theorem truncImage_of_le {s : List Char} (h : s.length ≤ 150) :
    truncImage (.str s) := by
  intro s2 hs2
  injection hs2 with hs3
  subst hs3
  exact ⟨h, s, (truncStr_self h).symm⟩

/-- A truncated string satisfies the policy. -/
theorem truncImage_trunc (orig : List Char) : truncImage (.str (truncStr orig)) := by
  intro s2 hs2
  injection hs2 with hs3
  subst hs3
  exact ⟨truncStr_le orig, orig, rfl⟩

/-- Non-strings satisfy the policy vacuously. -/
theorem truncImage_of_not_str {m : JsonValue} (h : ∀ s, m ≠ .str s) :
    truncImage m := by
  intro s hs
  exact absurd hs (h s)

/-- Every canonical-branch element obeys the policy. -/
theorem canonEl_truncImage (v : JsonValue) : truncImage (canonEl v) := by
  cases v with
  | str s => exact truncImage_trunc s
  | null =>
    refine truncImage_of_le ?_
    simp only [canonEl, List.length_take]
    omega
  | bool b =>
    refine truncImage_of_le ?_
    simp only [canonEl, List.length_take]
    omega
  | num l =>
    refine truncImage_of_le ?_
    simp only [canonEl, List.length_take]
    omega
  | arr xs =>
    refine truncImage_of_le ?_
    simp only [canonEl, List.length_take]
    omega
  | obj fs =>
    refine truncImage_of_le ?_
    simp only [canonEl, List.length_take]
    omega

/-- The truncation conditional obeys the policy. -/
theorem truncLogic_truncImage {m v : JsonValue} (h : truncLogic m = some v) :
    truncImage v := by
  cases m with
  | str s =>
    simp only [truncLogic, Option.some.injEq] at h
    subst h
    exact truncImage_trunc s
  | arr xs =>
    simp only [truncLogic] at h
    split at h
    · exact Option.noConfusion h
    · injection h with h1
      subst h1
      intro s hs
      exact JsonValue.noConfusion hs
  | null =>
    injection h with h1
    subst h1
    intro s hs
    exact JsonValue.noConfusion hs
  | bool b =>
    injection h with h1
    subst h1
    intro s hs
    exact JsonValue.noConfusion hs
  | num l =>
    injection h with h1
    subst h1
    intro s hs
    exact JsonValue.noConfusion hs
  | obj fs =>
    injection h with h1
    subst h1
    intro s hs
    exact JsonValue.noConfusion hs

/-- Every `trollReminders` element obeys the policy. -/
theorem trollStep_truncImage {item v : JsonValue} (h : trollStep item = some v) :
    truncImage v := by
  cases item with
  | str s =>
    injection h with h1
    subst h1
    exact truncImage_trunc s
  | null => exact Option.noConfusion h
  | bool b =>
    unfold trollStep at h
    exact truncLogic_truncImage h
  | num l =>
    unfold trollStep at h
    exact truncLogic_truncImage h
  | arr xs =>
    unfold trollStep at h
    exact truncLogic_truncImage h
  | obj fs =>
    unfold trollStep at h
    exact truncLogic_truncImage h

/-- Every generic-scan element obeys the policy. -/
theorem genericStep_truncImage {item v : JsonValue}
    (h : genericStep item = some (some v)) : truncImage v := by
  cases item with
  | str s =>
    injection h with h1
    injection h1 with h2
    subst h2
    exact truncImage_trunc s
  | null => exact Option.noConfusion h
  | bool b =>
    unfold genericStep at h
    cases hp : pick3 (JsonValue.bool b) with
    | none =>
      simp only [hp] at h
      exact Option.noConfusion (Option.some.inj h)
    | some m =>
      simp only [hp] at h
      cases ht : truncLogic m with
      | none => rw [ht] at h; exact Option.noConfusion h
      | some v2 =>
        rw [ht] at h
        simp only [Option.map_some', Option.some.injEq] at h
        subst h
        exact truncLogic_truncImage ht
  | num l =>
    unfold genericStep at h
    cases hp : pick3 (JsonValue.num l) with
    | none =>
      simp only [hp] at h
      exact Option.noConfusion (Option.some.inj h)
    | some m =>
      simp only [hp] at h
      cases ht : truncLogic m with
      | none => rw [ht] at h; exact Option.noConfusion h
      | some v2 =>
        rw [ht] at h
        simp only [Option.map_some', Option.some.injEq] at h
        subst h
        exact truncLogic_truncImage ht
  | arr xs =>
    unfold genericStep at h
    cases hp : pick3 (JsonValue.arr xs) with
    | none =>
      simp only [hp] at h
      exact Option.noConfusion (Option.some.inj h)
    | some m =>
      simp only [hp] at h
      cases ht : truncLogic m with
      | none => rw [ht] at h; exact Option.noConfusion h
      | some v2 =>
        rw [ht] at h
        simp only [Option.map_some', Option.some.injEq] at h
        subst h
        exact truncLogic_truncImage ht
  | obj fs =>
    unfold genericStep at h
    cases hp : pick3 (JsonValue.obj fs) with
    | none =>
      simp only [hp] at h
      exact Option.noConfusion (Option.some.inj h)
    | some m =>
      simp only [hp] at h
      cases ht : truncLogic m with
      | none => rw [ht] at h; exact Option.noConfusion h
      | some v2 =>
        rw [ht] at h
        simp only [Option.map_some', Option.some.injEq] at h
        subst h
        exact truncLogic_truncImage ht

/-- Every output of a throwing map comes from some input. -/
theorem mapOpt_mem {α β : Type} {f : α → Option β} {xs : List α} {ys : List β}
    (h : mapOpt f xs = some ys) : ∀ y ∈ ys, ∃ x, f x = some y := by
  induction xs generalizing ys with
  | nil =>
    simp only [mapOpt, Option.some.injEq] at h
    subst h
    simp
  | cons x rest ih =>
    unfold mapOpt at h
    split at h
    · exact Option.noConfusion h
    · rename_i y0 hf
      cases hr : mapOpt f rest with
      | none => rw [hr] at h; exact Option.noConfusion h
      | some ys2 =>
        rw [hr] at h
        simp only [Option.map_some', Option.some.injEq] at h
        subst h
        intro y hy
        rcases List.mem_cons.mp hy with h1 | h2
        · exact ⟨x, h1 ▸ hf⟩
        · exact ih hr y h2

/-- Every default message is short. -/
theorem default_truncImage : ∀ m ∈ DEFAULT_BLAME_VALUES, truncImage m := by
  intro m hm
  unfold DEFAULT_BLAME_VALUES at hm
  rw [List.mem_map] at hm
  obtain ⟨d, hd, rfl⟩ := hm
  apply truncImage_of_le
  have hall : DEFAULT_BLAME_MESSAGES.all (fun d => d.length ≤ 150) = true := by
    decide
  rw [List.all_eq_true] at hall
  simpa using hall d hd

/-- The canonical branch: either the untruncated string-value case, or
every message obeys the truncation policy. -/
theorem canonicalFlow_truncImage {j : JsonValue} {m : List JsonValue}
    (h : canonicalFlow j = .ret m) :
    (∃ s, getField j bmKey = some (.str s) ∧ m = [.str s]) ∨
    ∀ x ∈ m, truncImage x := by
  unfold canonicalFlow at h
  dsimp only at h
  split at h
  · rename_i v heq
    split at h
    · split at h
      · left
        injection h with h1
        exact ⟨_, heq, h1.symm⟩
      · right
        split at h
        · injection h with h1
          subst h1
          exact default_truncImage
        · injection h with h1
          subst h1
          intro x hx
          rw [List.mem_map] at hx
          obtain ⟨y, _, rfl⟩ := hx
          exact canonEl_truncImage y
      · exact DFlow.noConfusion h
    · exact DFlow.noConfusion h
  · exact DFlow.noConfusion h

/-- Every `trollReminders`-branch message obeys the truncation policy. -/
theorem trollFlow_truncImage {j : JsonValue} {m : List JsonValue}
    (h : trollFlow j = .ret m) : ∀ x ∈ m, truncImage x := by
  unfold trollFlow at h
  split at h
  · split at h
    · split at h
      · split at h
        · split at h
          · exact DFlow.noConfusion h
          · rename_i mapped hmap
            dsimp only at h
            split at h
            · injection h with h1
              subst h1
              intro x hx
              obtain ⟨item, hitem⟩ := mapOpt_mem hmap x (List.mem_of_mem_filter hx)
              exact trollStep_truncImage hitem
            · exact DFlow.noConfusion h
        · exact DFlow.noConfusion h
      · exact DFlow.noConfusion h
    · exact DFlow.noConfusion h
  · exact DFlow.noConfusion h

/-- Every generic-scan message obeys the truncation policy. -/
theorem genericScan_truncImage {j : JsonValue} {ks : List (List Char)}
    {m : List JsonValue} (h : genericScan j ks = some m) :
    ∀ x ∈ m, truncImage x := by
  induction ks with
  | nil => simp [genericScan] at h
  | cons k rest ih =>
    unfold genericScan at h
    split at h
    · split at h
      · split at h
        · exact Option.noConfusion h
        · rename_i lst hmap
          dsimp only at h
          split at h
          · injection h with h1
            subst h1
            intro x hx
            rw [List.mem_filterMap] at hx
            obtain ⟨o, ho, hbind⟩ := hx
            cases o with
            | none => exact Option.noConfusion hbind
            | some v =>
              simp only [Option.some_bind] at hbind
              split at hbind
              · injection hbind with h2
                subst h2
                obtain ⟨item, hitem⟩ := mapOpt_mem hmap _ ho
                exact genericStep_truncImage hitem
              · exact Option.noConfusion hbind
          · exact ih h
      · exact ih h
    · exact ih h

/-- The whole post-parse cascade: either the string-value case, or every
message obeys the truncation policy. -/
theorem dispatchBlame_truncImage {j : JsonValue} {m : List JsonValue}
    (h : dispatchBlame j = some m) :
    (∃ s, getField j bmKey = some (.str s) ∧ m = [.str s]) ∨
    ∀ x ∈ m, truncImage x := by
  unfold dispatchBlame at h
  split at h
  · exact Option.noConfusion h
  · split at h
    · rename_i hc
      injection h with h1
      subst h1
      exact canonicalFlow_truncImage hc
    · exact Option.noConfusion h
    · split at h
      · rename_i ht
        injection h with h1
        subst h1
        exact Or.inr (trollFlow_truncImage ht)
      · exact Option.noConfusion h
      · exact Or.inr (genericScan_truncImage h)

/-- Every regex-salvage message obeys the truncation policy. -/
theorem blameSalvage_truncImage {cs : List Char} {m : List JsonValue}
    (h : blameSalvage cs = some m) : ∀ x ∈ m, truncImage x := by
  unfold blameSalvage at h
  dsimp only at h
  split at h
  · split at h
    · injection h with h1
      subst h1
      intro x hx
      rw [List.mem_map] at hx
      obtain ⟨y, hy, rfl⟩ := hx
      rw [List.mem_map] at hy
      obtain ⟨g, _, rfl⟩ := hy
      exact truncImage_trunc g
    · exact Option.noConfusion h
  · exact Option.noConfusion h

/-- Every capture of the quoted-substring scan is 10–150 characters. -/
theorem quotedScan_mem {b0 : List Char} :
    ∀ {segs : List (List Char)}, b0 ∈ quotedScan segs →
      10 ≤ b0.length ∧ b0.length ≤ 150 := by
  intro segs
  induction segs using quotedScan.induct with
  | case1 a b c rest hcond ih =>
    intro hb
    unfold quotedScan at hb
    rw [if_pos hcond] at hb
    rcases List.mem_cons.mp hb with h1 | h2
    · subst h1
      exact hcond
    · exact ih h2
  | case2 a b c rest hcond ih =>
    intro hb
    unfold quotedScan at hb
    rw [if_neg hcond] at hb
    exact ih hb
  | case3 t hne =>
    intro hb
    cases t with
    | nil => simp [quotedScan] at hb
    | cons a t2 =>
      cases t2 with
      | nil => simp [quotedScan] at hb
      | cons b2 t3 =>
        cases t3 with
        | nil => simp [quotedScan] at hb
        | cons c t4 => exact absurd rfl (hne a b2 c t4)

/-- Every quoted-substring salvage message obeys the truncation policy. -/
theorem quotedSalvage_truncImage {cs : List Char} {m : List JsonValue}
    (h : quotedSalvage cs = some m) : ∀ x ∈ m, truncImage x := by
  unfold quotedSalvage at h
  dsimp only at h
  split at h
  · injection h with h1
    subst h1
    intro x hx
    rw [List.mem_map] at hx
    obtain ⟨y, hy, rfl⟩ := hx
    exact truncImage_of_le (quotedScan_mem (List.mem_of_mem_take hy)).2
  · exact Option.noConfusion h

/-- C4 as amended.  Every blame-message string produced by the structural
stage — the canonical array branch, the synonym (`trollReminders`) branch,
the generic array scan, and both regex salvages — is an image of the
150/147-truncation (so never longer than 150 characters); the one
exception is the string-value branch (`blameMessages` a bare string),
which returns its string untruncated. -/
theorem structuralMessages_truncation (t : List Char) (msgs : List JsonValue)
    (h : structuralMessages t = some msgs) :
    (∃ j s, jsonParse t = some j ∧ getField j bmKey = some (.str s) ∧
      msgs = [.str s]) ∨
    ∀ m ∈ msgs, truncImage m := by
  unfold structuralMessages at h
  split at h
  · rename_i hd
    injection h with h1
    subst h1
    cases hp : jsonParse t with
    | none =>
      rw [hp] at hd
      exact Option.noConfusion hd
    | some j =>
      rw [hp] at hd
      rcases dispatchBlame_truncImage hd with ⟨s, hs1, hs2⟩ | hall
      · exact Or.inl ⟨j, s, rfl, hs1, hs2⟩
      · exact Or.inr hall
  · split at h
    · rename_i hbs
      injection h with h1
      subst h1
      exact Or.inr (blameSalvage_truncImage hbs)
    · exact Or.inr (quotedSalvage_truncImage h)

/-- C4 witness: a concrete input that reaches the quoted-substring
salvage; its message is a truncation image. -/
theorem structuralMessages_truncation_w :
    (∃ j s, jsonParse "\"0123456789ab\"".toList = some j ∧
      getField j bmKey = some (.str s) ∧
      ([JsonValue.str "0123456789ab".toList] : List JsonValue) = [.str s]) ∨
    ∀ m ∈ ([JsonValue.str "0123456789ab".toList] : List JsonValue),
      truncImage m :=
  structuralMessages_truncation _ _ rfl

/-! ## Scheduler properties (background checkTasks) -/

namespace Background

/-- A tick step never changes a task's id. -/
theorem todoStep_id (cfg : AIConfig) (env : TickEnv) (now : Nat) (u : Todo) :
    ((todoStep cfg env now u).1).id = u.id := by
  unfold todoStep
  repeat' (first | split | dsimp only)

/-- A completed task is skipped: unchanged, no notification. -/
theorem todoStep_completed (cfg : AIConfig) (env : TickEnv) (now : Nat)
    (u : Todo) (h : u.completed = true) : todoStep cfg env now u = (u, []) := by
  unfold todoStep
  rw [if_pos h]

/-- An already-expired task is skipped: unchanged, no notification. -/
theorem todoStep_skip_expired (cfg : AIConfig) (env : TickEnv) (now : Nat)
    (u : Todo) (h : u.timeExpired = true) : todoStep cfg env now u = (u, []) := by
  unfold todoStep
  by_cases hc : u.completed = true
  · rw [if_pos hc]
  · rw [if_neg hc, if_pos h]

/-- Every notification a step pushes carries the task's own id. -/
theorem todoStep_notif_id (cfg : AIConfig) (env : TickEnv) (now : Nat)
    (u : Todo) : ∀ p ∈ (todoStep cfg env now u).2, p.taskId = some u.id := by
  intro p hp
  unfold todoStep at hp
  repeat' (first | split at hp | dsimp only at hp)
  all_goals first
    | exact absurd hp (List.not_mem_nil p)
    | (simp only [List.mem_singleton] at hp
       subst hp
       rfl)

/-- An open, undated, non-zero-created task past its timebox fires: it is
marked expired and pushes exactly one notification with its id. -/
theorem todoStep_fires (cfg : AIConfig) (env : TickEnv) (now : Nat) (u : Todo)
    (hcomp : u.completed = false) (hexp : u.timeExpired = false)
    (hcr : u.created ≠ 0)
    (hnow : (match u.dueDate with
      | some d => d
      | none => u.created + 10 * 1000) ≤ now) :
    (todoStep cfg env now u).1.timeExpired = true ∧
    ∃ msg, (todoStep cfg env now u).2 = [⟨msg, now, some u.id⟩] := by
  unfold todoStep
  rw [if_neg (by simp [hcomp]), if_neg (by simp [hexp])]
  dsimp only
  rw [if_neg hcr, if_pos hnow]
  refine ⟨?_, ⟨_, rfl⟩⟩
  repeat' split
  all_goals rfl

/-- Count of pending notifications that reference an id. -/
def countId (ps : List PendingBlameMessage) (i : String) : Nat :=
  (ps.filter (fun p => p.taskId = some i)).length

/-- Counting distributes over append. -/
theorem countId_append (a b : List PendingBlameMessage) (i : String) :
    countId (a ++ b) i = countId a i + countId b i := by
  simp [countId, List.filter_append]

/-- A list none of whose entries reference the id counts zero. -/
theorem countId_zero {l : List PendingBlameMessage} {i : String}
    (h : ∀ p ∈ l, p.taskId ≠ some i) : countId l i = 0 := by
  unfold countId
  rw [List.filter_eq_nil_iff.mpr]
  · rfl
  · intro p hp
    simpa using h p hp

/-- A flattened batch none of whose entries reference the id counts zero. -/
theorem countId_flatten_zero {ls : List (List PendingBlameMessage)} {i : String}
    (h : ∀ xs ∈ ls, ∀ p ∈ xs, p.taskId ≠ some i) : countId ls.flatten i = 0 := by
  induction ls with
  | nil => rfl
  | cons xs rest ih =>
    rw [List.flatten_cons, countId_append,
      countId_zero (h xs (List.mem_cons_self xs rest)), ih]
    intro ys hys
    exact h ys (List.mem_cons_of_mem xs hys)

/-- The todos after a tick are the per-task steps. -/
theorem checkTasks_todos (env : TickEnv) (now : Nat) (s : SchedState) :
    (checkTasks env now s).todos =
      s.todos.map (fun u => (todoStep (cfgOf s) env now u).1) := by
  unfold checkTasks
  split
  · rename_i he
    have h0 : s.todos = [] := by simpa using he
    rw [h0]
    rfl
  · rfl

/-- The pending queue after a tick is the old queue plus the per-task
notifications. -/
theorem checkTasks_pending (env : TickEnv) (now : Nat) (s : SchedState) :
    (checkTasks env now s).pendingBlameMessages =
      s.pendingBlameMessages ++
        (s.todos.map (fun u => (todoStep (cfgOf s) env now u).2)).flatten := by
  unfold checkTasks
  split
  · rename_i he
    have h0 : s.todos = [] := by simpa using he
    rw [h0]
    simp
  · rfl

/-- Over any sequence of ticks, tasks satisfying a step-inert predicate on
a given id keep satisfying it, the count of notifications for that id
never changes, and every inert task object survives unchanged. -/
theorem runTicks_frozen (i : String) (P : Todo → Prop)
    (hP : ∀ cfg env now u, P u → todoStep cfg env now u = (u, []))
    (ticks : List (TickEnv × Nat)) (s : SchedState)
    (hinv : ∀ u ∈ s.todos, u.id = i → P u) :
    (∀ u ∈ (runTicks ticks s).todos, u.id = i → P u) ∧
    countId (runTicks ticks s).pendingBlameMessages i =
      countId s.pendingBlameMessages i ∧
    ∀ v ∈ s.todos, P v → v ∈ (runTicks ticks s).todos := by
  induction ticks generalizing s with
  | nil => exact ⟨hinv, rfl, fun v hv _ => hv⟩
  | cons tk rest ih =>
    have hstep : runTicks (tk :: rest) s = runTicks rest (checkTasks tk.1 tk.2 s) := rfl
    have hinv1 : ∀ u ∈ (checkTasks tk.1 tk.2 s).todos, u.id = i → P u := by
      intro u hu hid
      rw [checkTasks_todos] at hu
      rw [List.mem_map] at hu
      obtain ⟨w, hw, rfl⟩ := hu
      have hwid : w.id = i := by rw [← todoStep_id (cfgOf s) tk.1 tk.2 w]; exact hid
      have hPw := hinv w hw hwid
      rw [hP _ _ _ _ hPw]
      exact hPw
    obtain ⟨a, b, c⟩ := ih (checkTasks tk.1 tk.2 s) hinv1
    refine ⟨hstep ▸ a, ?_, ?_⟩
    · have hz : countId ((s.todos.map
          (fun u => (todoStep (cfgOf s) tk.1 tk.2 u).2)).flatten) i = 0 := by
        refine countId_flatten_zero ?_
        intro xs hxs p hp
        rw [List.mem_map] at hxs
        obtain ⟨w, hw, rfl⟩ := hxs
        by_cases hwid : w.id = i
        · rw [hP _ _ _ _ (hinv w hw hwid)] at hp
          simp at hp
        · have hpid := todoStep_notif_id (cfgOf s) tk.1 tk.2 w p hp
          rw [hpid]
          simpa using hwid
      rw [hstep, b, checkTasks_pending, countId_append, hz]
      omega
    · intro v hv hPv
      rw [hstep]
      refine c v ?_ hPv
      rw [checkTasks_todos, List.mem_map]
      exact ⟨v, hv, by rw [hP _ _ _ _ hPv]⟩

end Background

namespace Background

/-- The background default set rendered as the strings `checkTasks`'s
validity filter accepts. -/
def DEFAULT_BLAME_STRINGS : List String :=
  DEFAULT_BLAME_MESSAGES.filterMap (fun m =>
    match m with
    | JsonValue.str s => some (String.mk s)
    | _ => none)

/-- With no wire response (network failure), every provider path of
`generateBlameMessage` returns the background default set. -/
theorem generateBlameMessage_none (cfg : AIConfig) :
    generateBlameMessage none cfg = DEFAULT_BLAME_MESSAGES := by
  unfold generateBlameMessage
  split
  · rfl
  · split <;> rfl

/-- `getD` at an index inside the list is a member. -/
theorem getD_mem {α : Type} {l : List α} {n : Nat} {d : α}
    (h : n < l.length) : l.getD n d ∈ l := by
  induction l generalizing n with
  | nil => simp at h
  | cons a rest ih =>
    cases n with
    | zero => exact List.mem_cons_self a rest
    | succ n2 =>
      simp only [List.getD_cons_succ]
      exact List.mem_cons_of_mem a (ih (by simpa using h))

/-- When AI is off (disabled or keyless), an expiring task's notification
carries the deterministic template. -/
theorem todoStep_off_template (cfg : AIConfig) (env : TickEnv) (now : Nat)
    (u : Todo) (hcomp : u.completed = false) (hexp : u.timeExpired = false)
    (hcr : u.created ≠ 0)
    (hnow : (match u.dueDate with
      | some d => d
      | none => u.created + 10 * 1000) ≤ now)
    (hoff : ¬(cfg.enabled = true ∧ cfg.apiKey ≠ "")) :
    (todoStep cfg env now u).2 = [⟨templateMsg u, now, some u.id⟩] := by
  unfold todoStep
  rw [if_neg (by simp [hcomp]), if_neg (by simp [hexp])]
  dsimp only
  rw [if_neg hcr, if_pos hnow, if_neg hoff]

/-- When AI is on but the network fails, an expiring task's notification
carries a randomly picked background default — not the template. -/
theorem todoStep_netfail_default (cfg : AIConfig) (env : TickEnv) (now : Nat)
    (u : Todo) (hcomp : u.completed = false) (hexp : u.timeExpired = false)
    (hcr : u.created ≠ 0)
    (hnow : (match u.dueDate with
      | some d => d
      | none => u.created + 10 * 1000) ≤ now)
    (hon : cfg.enabled = true ∧ cfg.apiKey ≠ "") (hw : env.wire u = none) :
    ∃ k, k < DEFAULT_BLAME_STRINGS.length ∧
      (todoStep cfg env now u).2 =
        [⟨DEFAULT_BLAME_STRINGS.getD k "", now, some u.id⟩] := by
  unfold todoStep
  rw [if_neg (by simp [hcomp]), if_neg (by simp [hexp])]
  dsimp only
  rw [if_neg hcr, if_pos hnow, if_pos hon, hw, generateBlameMessage_none]
  have hvalid : DEFAULT_BLAME_MESSAGES.filterMap (fun m =>
      match m with
      | JsonValue.str s => if 10 < (jsTrim s).length then some (String.mk s) else none
      | _ => none) = DEFAULT_BLAME_STRINGS := by
    rfl
  rw [hvalid]
  rw [if_pos (by decide), if_pos (by decide), if_pos (by decide)]
  exact ⟨env.pick u % DEFAULT_BLAME_STRINGS.length,
    Nat.mod_lt _ (by decide), rfl⟩

/-- C8 as amended.  Whenever a tick transitions a task to expired, exactly
one notification for its id is pushed into the pending queue, always —
AI and network failures never block it.  When AI is disabled or keyless
the message is the deterministic template `⏰ Hết giờ cho công việc:
"<text>"`; when AI is on but the network fails, the message falls back to
the background default blame set (not the template). -/
theorem checkTasks_expiry_always_notifies (t : Todo) (s : SchedState)
    (env : TickEnv) (now : Nat)
    (hmem : t ∈ s.todos)
    (hcomp : t.completed = false) (hexp : t.timeExpired = false)
    (hcr : t.created ≠ 0)
    (hnow : (match t.dueDate with
      | some d => d
      | none => t.created + 10 * 1000) ≤ now) :
    ∃ msg, (todoStep (cfgOf s) env now t).2 = [⟨msg, now, some t.id⟩] ∧
      (⟨msg, now, some t.id⟩ : PendingBlameMessage) ∈
        (checkTasks env now s).pendingBlameMessages ∧
      (¬((cfgOf s).enabled = true ∧ (cfgOf s).apiKey ≠ "") →
        msg = templateMsg t) ∧
      ((cfgOf s).enabled = true ∧ (cfgOf s).apiKey ≠ "" ∧ env.wire t = none →
        msg ∈ DEFAULT_BLAME_STRINGS) := by
  obtain ⟨hfired, msg, hmsg⟩ :=
    todoStep_fires (cfgOf s) env now t hcomp hexp hcr hnow
  refine ⟨msg, hmsg, ?_, ?_, ?_⟩
  · rw [checkTasks_pending]
    refine List.mem_append_right _ ?_
    rw [List.mem_flatten]
    refine ⟨(todoStep (cfgOf s) env now t).2, ?_, ?_⟩
    · rw [List.mem_map]
      exact ⟨t, hmem, rfl⟩
    · rw [hmsg]
      exact List.mem_singleton.mpr rfl
  · intro hoff
    have h2 := todoStep_off_template (cfgOf s) env now t hcomp hexp hcr hnow hoff
    rw [hmsg] at h2
    have h5 : msg = templateMsg t := by
      have h6 := congrArg (fun l => (l.headD ⟨"", 0, none⟩).message) h2
      simpa using h6
    exact h5
  · intro hon
    obtain ⟨k, hk, h2⟩ := todoStep_netfail_default (cfgOf s) env now t hcomp hexp
      hcr hnow ⟨hon.1, hon.2.1⟩ hon.2.2
    rw [hmsg] at h2
    have h5 : msg = DEFAULT_BLAME_STRINGS.getD k "" := by
      have h6 := congrArg (fun l => (l.headD ⟨"", 0, none⟩).message) h2
      simpa using h6
    rw [h5]
    exact getD_mem hk

/-- C8 witness: a single open task past its timebox, with AI off. -/
theorem checkTasks_expiry_always_notifies_w :
    ∃ msg, (todoStep (cfgOf ⟨[⟨"9", "nop", 1000, false, false, none, none, none, none⟩],
        [], some ⟨false, "", "openrouter"⟩⟩) ⟨fun _ => none, fun _ => 0⟩ 20000
        ⟨"9", "nop", 1000, false, false, none, none, none, none⟩).2 =
      [⟨msg, 20000, some (Todo.id ⟨"9", "nop", 1000, false, false, none, none, none, none⟩)⟩] ∧
      (⟨msg, 20000, some (Todo.id ⟨"9", "nop", 1000, false, false, none, none, none, none⟩)⟩ :
        PendingBlameMessage) ∈
        (checkTasks ⟨fun _ => none, fun _ => 0⟩ 20000
          ⟨[⟨"9", "nop", 1000, false, false, none, none, none, none⟩],
           [], some ⟨false, "", "openrouter"⟩⟩).pendingBlameMessages ∧
      (¬((cfgOf ⟨[⟨"9", "nop", 1000, false, false, none, none, none, none⟩],
          [], some ⟨false, "", "openrouter"⟩⟩).enabled = true ∧
        (cfgOf ⟨[⟨"9", "nop", 1000, false, false, none, none, none, none⟩],
          [], some ⟨false, "", "openrouter"⟩⟩).apiKey ≠ "") →
        msg = templateMsg ⟨"9", "nop", 1000, false, false, none, none, none, none⟩) ∧
      ((cfgOf ⟨[⟨"9", "nop", 1000, false, false, none, none, none, none⟩],
          [], some ⟨false, "", "openrouter"⟩⟩).enabled = true ∧
        (cfgOf ⟨[⟨"9", "nop", 1000, false, false, none, none, none, none⟩],
          [], some ⟨false, "", "openrouter"⟩⟩).apiKey ≠ "" ∧
        TickEnv.wire ⟨fun _ => none, fun _ => 0⟩
          ⟨"9", "nop", 1000, false, false, none, none, none, none⟩ = none →
        msg ∈ DEFAULT_BLAME_STRINGS) :=
  checkTasks_expiry_always_notifies
    ⟨"9", "nop", 1000, false, false, none, none, none, none⟩
    ⟨[⟨"9", "nop", 1000, false, false, none, none, none, none⟩],
      [], some ⟨false, "", "openrouter"⟩⟩
    ⟨fun _ => none, fun _ => 0⟩ 20000
    (List.mem_singleton.mpr rfl) rfl rfl (by decide) (by decide)

/-- C8 counterexample.  The claim as stated says a failed AI pipeline
yields the template message; in fact a network failure makes
`generateBlameMessage` return the background default set, and the pushed
notification carries one of those defaults, not the template. -/
theorem checkTasks_ai_failure_not_template :
    (checkTasks ⟨fun _ => none, fun _ => 0⟩ 12000
      ⟨[⟨"42", "leetcode", 1000, false, false, none, none, none, none⟩], [],
        some ⟨true, "sk", "openrouter"⟩⟩).pendingBlameMessages =
      [⟨"⚠️ Công việc của bạn đã quá hạn!", 12000, some "42"⟩] ∧
    ("⚠️ Công việc của bạn đã quá hạn!" : String) ≠
      templateMsg ⟨"42", "leetcode", 1000, false, false, none, none, none, none⟩ := by
  refine ⟨rfl, ?_⟩
  decide

end Background

namespace Background

/-- C2.  A task with no explicit deadline and the 10-second timebox,
observed by a tick at or after creation + 10s, transitions to expired and
gets exactly one pending notification referencing its id; any number of
later ticks (which skip tasks already expired) never flip the flag back,
never re-transition it, and never add a second notification for that id. -/
theorem checkTasks_expires_exactly_once
    (t : Todo) (pre post : List Todo) (pending0 : List PendingBlameMessage)
    (cfgo : Option AIConfig) (env1 : TickEnv) (now1 : Nat)
    (ticks : List (TickEnv × Nat))
    (hdue : t.dueDate = none) (hcr : t.created ≠ 0)
    (hcomp : t.completed = false) (hexp : t.timeExpired = false)
    (hnow : t.created + 10 * 1000 ≤ now1)
    (hothers : ∀ u ∈ pre ++ post, u.id ≠ t.id)
    (hcount : countId pending0 t.id = 0) :
    (∀ u ∈ (checkTasks env1 now1 ⟨pre ++ t :: post, pending0, cfgo⟩).todos,
      u.id = t.id → u.timeExpired = true) ∧
    countId (checkTasks env1 now1
      ⟨pre ++ t :: post, pending0, cfgo⟩).pendingBlameMessages t.id = 1 ∧
    (∀ u ∈ (runTicks ticks (checkTasks env1 now1
        ⟨pre ++ t :: post, pending0, cfgo⟩)).todos,
      u.id = t.id → u.timeExpired = true) ∧
    countId (runTicks ticks (checkTasks env1 now1
      ⟨pre ++ t :: post, pending0, cfgo⟩)).pendingBlameMessages t.id = 1 := by
  have hnow2 : (match t.dueDate with
      | some d => d
      | none => t.created + 10 * 1000) ≤ now1 := by
    rw [hdue]
    exact hnow
  have hfire := todoStep_fires (cfgOf ⟨pre ++ t :: post, pending0, cfgo⟩)
    env1 now1 t hcomp hexp hcr hnow2
  have hinv1 : ∀ u ∈ (checkTasks env1 now1
      ⟨pre ++ t :: post, pending0, cfgo⟩).todos, u.id = t.id →
      u.timeExpired = true := by
    intro u hu hid
    rw [checkTasks_todos, List.mem_map] at hu
    obtain ⟨w, hw, rfl⟩ := hu
    have hwid : w.id = t.id := by
      rw [← todoStep_id (cfgOf ⟨pre ++ t :: post, pending0, cfgo⟩) env1 now1 w]
      exact hid
    rcases List.mem_append.mp hw with hw1 | hw2
    · exact absurd hwid (hothers w (List.mem_append.mpr (Or.inl hw1)))
    · rcases List.mem_cons.mp hw2 with rfl | hw3
      · exact hfire.1
      · exact absurd hwid (hothers w (List.mem_append.mpr (Or.inr hw3)))
  have hcount1 : countId (checkTasks env1 now1
      ⟨pre ++ t :: post, pending0, cfgo⟩).pendingBlameMessages t.id = 1 := by
    obtain ⟨msg, hmsg⟩ := hfire.2
    rw [checkTasks_pending, countId_append, hcount]
    have hmap : (pre ++ t :: post).map
        (fun u => (todoStep (cfgOf ⟨pre ++ t :: post, pending0, cfgo⟩) env1 now1 u).2) =
        pre.map (fun u => (todoStep (cfgOf ⟨pre ++ t :: post, pending0, cfgo⟩) env1 now1 u).2) ++
        (todoStep (cfgOf ⟨pre ++ t :: post, pending0, cfgo⟩) env1 now1 t).2 ::
        post.map (fun u => (todoStep (cfgOf ⟨pre ++ t :: post, pending0, cfgo⟩) env1 now1 u).2) := by
      rw [List.map_append, List.map_cons]
    rw [hmap, List.flatten_append, List.flatten_cons, countId_append, countId_append]
    have hz : ∀ (l : List Todo), (∀ u ∈ l, u.id ≠ t.id) →
        countId ((l.map (fun u => (todoStep
          (cfgOf ⟨pre ++ t :: post, pending0, cfgo⟩) env1 now1 u).2)).flatten) t.id = 0 := by
      intro l hl
      refine countId_flatten_zero ?_
      intro xs hxs p hp
      rw [List.mem_map] at hxs
      obtain ⟨w, hw, rfl⟩ := hxs
      have hpid := todoStep_notif_id _ env1 now1 w p hp
      rw [hpid]
      simpa using hl w hw
    rw [hz pre (fun u hu => hothers u (List.mem_append.mpr (Or.inl hu))),
      hz post (fun u hu => hothers u (List.mem_append.mpr (Or.inr hu))), hmsg]
    simp [countId]
  obtain ⟨a, b, _⟩ := runTicks_frozen t.id (fun u => u.timeExpired = true)
    (fun cfg env now u h => todoStep_skip_expired cfg env now u h) ticks
    (checkTasks env1 now1 ⟨pre ++ t :: post, pending0, cfgo⟩) hinv1
  exact ⟨hinv1, hcount1, a, b.trans hcount1⟩

/-- C2 witness: the concrete Scenario D — creation at 1000ms, tick at
12000ms (11s later), then 20 further one-second ticks. -/
theorem checkTasks_expires_exactly_once_w :
    countId (runTicks ((List.range 20).map
        (fun i => (⟨fun _ => none, fun _ => 0⟩, 13000 + 1000 * i)))
      (checkTasks ⟨fun _ => none, fun _ => 0⟩ 12000
        ⟨[] ++ (⟨"1", "leetcode", 1000, false, false, none, none, none, none⟩ : Todo) :: [],
         [], some ⟨true, "sk", "openrouter"⟩⟩)).pendingBlameMessages
      (Todo.id ⟨"1", "leetcode", 1000, false, false, none, none, none, none⟩) = 1 :=
  (checkTasks_expires_exactly_once
    ⟨"1", "leetcode", 1000, false, false, none, none, none, none⟩ [] [] []
    (some ⟨true, "sk", "openrouter"⟩) ⟨fun _ => none, fun _ => 0⟩ 12000
    ((List.range 20).map (fun i => (⟨fun _ => none, fun _ => 0⟩, 13000 + 1000 * i)))
    rfl (by decide) rfl rfl (by decide) (by simp) rfl).2.2.2

/-- C7.  A task whose completed flag is true when a tick runs is skipped —
the stored object survives every later tick unchanged (so its expiry flag
never moves) and no notification for its id is ever added. -/
theorem checkTasks_completed_is_inert
    (t : Todo) (s : SchedState) (ticks : List (TickEnv × Nat))
    (hmem : t ∈ s.todos) (hc : t.completed = true)
    (hall : ∀ u ∈ s.todos, u.id = t.id → u.completed = true) :
    t ∈ (runTicks ticks s).todos ∧
    countId (runTicks ticks s).pendingBlameMessages t.id =
      countId s.pendingBlameMessages t.id := by
  obtain ⟨_, b, c⟩ := runTicks_frozen t.id (fun u => u.completed = true)
    (fun cfg env now u h => todoStep_completed cfg env now u h) ticks s hall
  exact ⟨c t hmem hc, b⟩

/-- C7 witness: a task completed at 6000ms (before its timebox elapses),
watched over two later ticks. -/
theorem checkTasks_completed_is_inert_w :
    (⟨"7", "done", 1000, true, false, none, none, none, none⟩ : Todo) ∈
      (runTicks [(⟨fun _ => none, fun _ => 0⟩, 20000),
        (⟨fun _ => none, fun _ => 0⟩, 30000)]
        ⟨[⟨"7", "done", 1000, true, false, none, none, none, none⟩], [],
          none⟩).todos ∧
    countId (runTicks [(⟨fun _ => none, fun _ => 0⟩, 20000),
        (⟨fun _ => none, fun _ => 0⟩, 30000)]
        ⟨[⟨"7", "done", 1000, true, false, none, none, none, none⟩], [],
          none⟩).pendingBlameMessages
      (Todo.id ⟨"7", "done", 1000, true, false, none, none, none, none⟩) =
      countId [] (Todo.id ⟨"7", "done", 1000, true, false, none, none, none, none⟩) :=
  checkTasks_completed_is_inert
    ⟨"7", "done", 1000, true, false, none, none, none, none⟩
    ⟨[⟨"7", "done", 1000, true, false, none, none, none, none⟩], [], none⟩
    [(⟨fun _ => none, fun _ => 0⟩, 20000), (⟨fun _ => none, fun _ => 0⟩, 30000)]
    (List.mem_singleton.mpr rfl) rfl
    (by intro u hu _
        rcases List.mem_singleton.mp hu with rfl
        rfl)

/-- C10.  At background startup `checkAndUpdateAISettings` silently
rewrites the stored configuration: a missing provider or `openai` becomes
`openrouter`; an undefined `enabled` becomes `true`; a stored `gemini` or
`openrouter` provider and an explicit `enabled = false` are left as they
are. -/
theorem checkAndUpdateAISettings_spec (c : StoredAIConfig) :
    ((c.provider = none ∨ c.provider = some "openai") →
      (checkAndUpdateAISettings (some c)).provider = some "openrouter") ∧
    (c.provider = some "gemini" →
      (checkAndUpdateAISettings (some c)).provider = some "gemini") ∧
    (c.provider = some "openrouter" →
      (checkAndUpdateAISettings (some c)).provider = some "openrouter") ∧
    (c.enabled = none →
      (checkAndUpdateAISettings (some c)).enabled = some true) ∧
    (c.enabled = some false →
      (checkAndUpdateAISettings (some c)).enabled = some false) := by
  obtain ⟨p, e, k⟩ := c
  refine ⟨?_, ?_, ?_, ?_, ?_⟩
  · intro h
    rcases h with h | h <;> subst h <;>
      by_cases he : e = none <;>
      simp [checkAndUpdateAISettings, he]
  · intro h
    subst h
    by_cases he : e = none <;> simp [checkAndUpdateAISettings, he]
  · intro h
    subst h
    by_cases he : e = none <;> simp [checkAndUpdateAISettings, he]
  · intro h
    subst h
    by_cases hp : (Option.getD p "" = "" ∨ p = some "openai") <;>
      simp [checkAndUpdateAISettings, hp]
  · intro h
    subst h
    by_cases hp : (Option.getD p "" = "" ∨ p = some "openai") <;>
      simp [checkAndUpdateAISettings, hp]

end Background

end TaskTroll
